import Mathlib

/-!
Verification development for the OpenRhythm chart core
(`core/src/chart/{parser.rs, model.rs, manager.rs}`).

Conventions of the shallow embedding:
* Rust `f64` values are idealized as exact rationals (`ℚ`); every claim
  whose truth depends on IEEE special values (NaN/inf) is additionally
  modelled with the `FVal` type below, which adds the special values to ℚ
  while keeping the arithmetic exact (no rounding, no signed zero).
* Rust machine integers are modelled as `Int`/`ℕ`; the only place where
  wrap-around/saturation matters (the `as u64`/`as u8` casts in the
  time-signature decoding) performs the reduction explicitly.
* `serde_json::Value` is modelled by the `Json` inductive; `HashMap`s are
  modelled as association lists in insertion order (all claims touched
  here only use membership / lookup, which is order-insensitive).
* Fallible operations return `Except CoreError`.
-/

/-- A Malody beat position: (measure, numerator, denominator), each an `i32`. -/
abbrev Beat := Int × Int × Int

/-- `measure + numerator / denominator` as computed in
`beat_to_time_with_bpm_changes` (parser.rs line 283).  In ℚ a zero
denominator yields `measure + 0`; the IEEE behaviour is captured
separately by `beatValueF` below. -/
def beatValue (b : Beat) : ℚ := (b.1 : ℚ) + (b.2.1 : ℚ) / (b.2.2 : ℚ)

/-- model.rs `BPMChange`, generic in the type used for seconds. -/
structure BPMChangeT (τ : Type) where
  time : τ
  bpm : ℚ
  beat : Beat

/-- model.rs `TimeSignature`. -/
structure TimeSignatureT (τ : Type) where
  time : τ
  numerator : ℕ
  denominator : ℕ
  beat : Beat

/-- model.rs `SpeedChange`. -/
structure SpeedChangeT (τ : Type) where
  time : τ
  speed : ℚ
  beat : Beat

/-- model.rs `NoteType`. -/
inductive NoteType where
  | tap
  | hold
  | slide
  | chain
deriving DecidableEq

/-- A `serde_json::Value`. -/
inductive Json where
  | null
  | bool (b : Bool)
  | num (q : ℚ)
  | str (s : String)
  | arr (elems : List Json)
  | obj (fields : List (String × Json))

/-- model.rs `Note`. -/
structure NoteT (τ : Type) where
  id : ℕ
  start_time : τ
  end_time : Option τ
  column : ℕ
  note_type : NoteType
  beat : Beat
  sound : Option String
  volume : Option ℕ

/-- model.rs `ChartEvent`. -/
structure ChartEventT (τ : Type) where
  time : τ
  event_type : String
  data : Json

/-- model.rs `ChartMetadata`. -/
structure ChartMetadata where
  title : String
  title_original : Option String
  artist : String
  artist_original : Option String
  creator : String
  version : String
  background : Option String
  audio : Option String
  audio_offset : Int
  preview_time : Option ℚ
  bpm : ℚ
  id : Option ℕ
  mode : ℕ
  columns : ℕ

/-- model.rs `Chart`, generic in the type used for seconds. -/
structure ChartT (τ : Type) where
  metadata : ChartMetadata
  bpm_changes : List (BPMChangeT τ)
  time_signatures : List (TimeSignatureT τ)
  speed_changes : List (SpeedChangeT τ)
  notes : List (NoteT τ)
  effects : List (ChartEventT τ)
  custom_data : List (String × Json)

/-- The chart model with seconds idealized as ℚ. -/
abbrev Chart := ChartT ℚ

/-! ### The Malody input schema (parser.rs lines 8-72).
These mirror the serde intermediate structs; the source field `end`
of `MalodyNote` is a Lean keyword and is embedded as `endBeat`,
`type` is embedded as `note_type`/`effect_type` (the serde rename). -/

structure MalodySong where
  title : String
  artist : String
  titleorg : Option String
  artistorg : Option String
  id : Option ℕ

structure MalodyModeExt where
  column : ℕ
  bar_begin : Option Int

structure MalodyMeta where
  ver : Option Int
  creator : String
  background : Option String
  version : String
  id : Option ℕ
  mode : ℕ
  time : Option ℕ
  song : MalodySong
  mode_ext : Option MalodyModeExt

structure MalodyTimePoint where
  beat : Beat
  bpm : ℚ

structure MalodyNote where
  beat : Beat
  column : ℕ
  sound : Option String
  vol : Option ℕ
  offset : Option Int
  note_type : Option ℕ
  endBeat : Option Beat

structure MalodyEffect where
  beat : Beat
  effect_type : ℕ
  value : ℚ

structure MalodyChart where
  meta : MalodyMeta
  time : List MalodyTimePoint
  effect : List MalodyEffect
  note : List MalodyNote
  extra : Option (List (String × Json))

/-! ### Timeline calculator (parser.rs lines 278-312) -/

/-- The accumulation loop of `beat_to_time_with_bpm_changes`
(parser.rs lines 293-311): walk the breakpoints in list order, folding
`(time, current_beat, current_bpm)`; stop at the first breakpoint whose
beat exceeds the target, then add the remaining partial-beat duration. -/
def btwAux (target_beats : ℚ) : List (BPMChangeT ℚ) → ℚ → ℚ → ℚ → ℚ
  | [], time, current_beat, current_bpm =>
      time + (target_beats - current_beat) * (60 / current_bpm)
  | change :: rest, time, current_beat, current_bpm =>
      let change_beats := beatValue change.beat
      if change_beats ≤ target_beats then
        btwAux target_beats rest
          (time + (change_beats - current_beat) * (60 / current_bpm))
          change_beats change.bpm
      else
        time + (target_beats - current_beat) * (60 / current_bpm)

/-- parser.rs `MalodyParser::beat_to_time_with_bpm_changes`. -/
def beat_to_time_with_bpm_changes (bpm_changes : List (BPMChangeT ℚ))
    (target_beat : Beat) (default_bpm : ℚ) : ℚ :=
  let target_beats := beatValue target_beat
  if bpm_changes.isEmpty then
    target_beats * (60 / default_bpm)
  else
    btwAux target_beats bpm_changes 0 0 default_bpm

/-! ### Chart-level derived queries (model.rs lines 95-175) -/

/-- model.rs `Chart::duration`: maximum over notes of
`end_time.unwrap_or(start_time)`, folded from 0. -/
def Chart.duration (c : Chart) : ℚ :=
  c.notes.foldl (fun m note => max m (note.end_time.getD note.start_time)) 0

/-- The loop of model.rs `Chart::beat_to_time` (lines 153-167) together
with the trailing `if current_beat < total_beats` fix-up (lines 169-172).
On a `break` the source sets `current_beat = total_beats`, so the
fix-up only fires when the loop ran off the end of the list. -/
def b2tAux (total_beats : ℚ) : List (BPMChangeT ℚ) → ℚ → ℚ → ℚ → ℚ
  | [], time, current_beat, current_bpm =>
      if current_beat < total_beats then
        time + (total_beats - current_beat) * (60 / current_bpm)
      else time
  | change :: rest, time, current_beat, current_bpm =>
      let beats_until_change := beatValue change.beat - current_beat
      if current_beat + beats_until_change ≤ total_beats then
        b2tAux total_beats rest
          (time + beats_until_change * (60 / current_bpm))
          (current_beat + beats_until_change) change.bpm
      else
        time + (total_beats - current_beat) * (60 / current_bpm)

/-- model.rs `Chart::beat_to_time`: the chart-level beat→seconds
conversion, walking the chart's own breakpoint list with the chart's
base tempo as the initial tempo. -/
def Chart.beat_to_time (c : Chart) (beat : Beat) : ℚ :=
  b2tAux (beatValue beat) c.bpm_changes 0 0 c.metadata.bpm

/-! ### A stable ascending sort.
Rust's `sort_by(|a, b| a.time.partial_cmp(&b.time).unwrap())` is a
stable ascending sort; on a total preorder the stable sort is unique as
a function of the input, so it is embedded as stable insertion sort. -/

/-- Insert `a` in front of the first element `b` with `le a b`
(so an element keeps its place relative to equal keys that were
earlier in the list — stability). -/
def insertByKey (le : α → α → Bool) (a : α) : List α → List α
  | [] => [a]
  | b :: bs => if le a b then a :: b :: bs else b :: insertByKey le a bs

/-- Stable ascending sort by the boolean key order `le`. -/
def sortByKey (le : α → α → Bool) : List α → List α
  | [] => []
  | a :: as => insertByKey le a (sortByKey le as)

/-! ### The conversion routine (parser.rs `convert_to_chart`, lines 98-276) -/

/-- Note-type mapping (parser.rs lines 204-209):
`Some 1 → Hold`, `Some 2 → Slide`, `Some 3 → Chain`, anything else → `Tap`. -/
def noteTypeOf : Option ℕ → NoteType
  | some 1 => NoteType.hold
  | some 2 => NoteType.slide
  | some 3 => NoteType.chain
  | _ => NoteType.tap

/-- Rust's saturating `f64 as u64` cast (parser.rs line 164):
negative (and NaN) inputs give 0, values ≥ 2^64 give 2^64 - 1,
otherwise truncation toward zero. -/
def ratToU64 (q : ℚ) : ℕ :=
  if q ≤ 0 then 0 else min (2 ^ 64 - 1) ⌊q⌋.toNat

/-- Association-list insert with replace-on-existing-key
(`HashMap::insert` as far as lookups and iteration of callers observe it). -/
def insertKV (l : List (String × α)) (k : String) (v : α) : List (String × α) :=
  match l with
  | [] => [(k, v)]
  | (k0, v0) :: rest => if k0 = k then (k, v) :: rest else (k0, v0) :: insertKV rest k v

/-- Association-list lookup (`HashMap::get`). -/
def kvFind (l : List (String × α)) (k : String) : Option α :=
  match l with
  | [] => none
  | (k0, v0) :: rest => if k0 = k then some v0 else kvFind rest k

/-- The primary tempo-list loop (parser.rs lines 124-143).  Each entry's
absolute time is computed against the breakpoints accumulated so far;
the base tempo passed in is the first entry's tempo, which the source
assigns to `metadata.bpm` on the first iteration (when the accumulator
is still empty) before any conversion uses it. -/
def timeLoop (base : ℚ) : List MalodyTimePoint → List (BPMChangeT ℚ) → List (BPMChangeT ℚ)
  | [], acc => acc
  | tp :: rest, acc =>
      timeLoop base rest
        (acc ++ [⟨beat_to_time_with_bpm_changes acc tp.beat base, tp.bpm, tp.beat⟩])

/-- `metadata.bpm` after the primary tempo loop: the first entry's tempo,
or the 120 default when the list is empty (parser.rs lines 114, 128-130). -/
def baseBpmOf (mc : MalodyChart) : ℚ :=
  match mc.time with
  | [] => 120
  | tp :: _ => tp.bpm

/-- The breakpoint list accumulated by the primary tempo loop. -/
def primaryBpmChanges (mc : MalodyChart) : List (BPMChangeT ℚ) :=
  timeLoop (baseBpmOf mc) mc.time []

/-- State threaded through the effect loop. -/
structure EffectState where
  bpm_changes : List (BPMChangeT ℚ)
  time_signatures : List (TimeSignatureT ℚ)
  speed_changes : List (SpeedChangeT ℚ)
  effects : List (ChartEventT ℚ)

/-- The secondary "effect" loop (parser.rs lines 149-192).  Each entry's
time is computed against the combined breakpoint list accumulated so far
(primary entries plus earlier type-1 effect entries); type 1 appends a
`BPMChange`, type 2 a `TimeSignature` whose value decodes as a packed
byte pair through the `as u64` cast, type 3 a `SpeedChange`, anything
else a generic `ChartEvent`. -/
def effectLoop (base : ℚ) : List MalodyEffect → EffectState → EffectState
  | [], st => st
  | e :: rest, st =>
      let time := beat_to_time_with_bpm_changes st.bpm_changes e.beat base
      match e.effect_type with
      | 1 => effectLoop base rest
          { st with bpm_changes := st.bpm_changes ++ [⟨time, e.value, e.beat⟩] }
      | 2 =>
          let value := ratToU64 e.value
          effectLoop base rest
            { st with time_signatures := st.time_signatures ++
                [⟨time, value % 256, value / 256 % 256, e.beat⟩] }
      | 3 => effectLoop base rest
          { st with speed_changes := st.speed_changes ++ [⟨time, e.value, e.beat⟩] }
      | _ => effectLoop base rest
          { st with effects := st.effects ++
              [⟨time, "malody_effect_" ++ toString e.effect_type, Json.obj [("value", Json.num e.value)]⟩] }

/-- The effect-loop state after processing the whole effect list. -/
def effectStateOf (mc : MalodyChart) : EffectState :=
  effectLoop (baseBpmOf mc) mc.effect ⟨primaryBpmChanges mc, [], [], []⟩

/-- The fully-accumulated breakpoint list in insertion order
(primary tempo entries, then type-1 effect entries), i.e. the list every
note's beat is converted against. -/
def accumulatedBpmChanges (mc : MalodyChart) : List (BPMChangeT ℚ) :=
  (effectStateOf mc).bpm_changes

/-- State threaded through the note loop. -/
structure NoteState where
  notes : List (NoteT ℚ)
  audio_files : List (ℕ × String)
  audio : Option String
  audio_offset : Int

/-- The note loop (parser.rs lines 199-242), carrying the running
ordinal `i`.  The very first note (i = 0), when Tap-typed on column 0
with a custom sound, is consumed as the chart's audio reference; every
other note with a custom sound is recorded in `audio_files`; all
non-consumed notes are appended with their converted start/end times. -/
def noteLoop (bpm_changes : List (BPMChangeT ℚ)) (base : ℚ) :
    List MalodyNote → ℕ → NoteState → NoteState
  | [], _, st => st
  | n :: rest, i, st =>
      let start_time := beat_to_time_with_bpm_changes bpm_changes n.beat base
      let note_type := noteTypeOf n.note_type
      let end_time := n.endBeat.map
        (fun e => beat_to_time_with_bpm_changes bpm_changes e base)
      let note : NoteT ℚ :=
        ⟨i, start_time, end_time, n.column, note_type, n.beat, n.sound, n.vol⟩
      match n.sound with
      | some s =>
          if note_type = NoteType.tap ∧ n.column = 0 ∧ i = 0 then
            noteLoop bpm_changes base rest (i + 1)
              { st with audio := some s, audio_offset := n.offset.getD 0 }
          else
            noteLoop bpm_changes base rest (i + 1)
              { st with notes := st.notes ++ [note],
                        audio_files := st.audio_files ++ [(i, s)] }
      | none =>
          noteLoop bpm_changes base rest (i + 1)
            { st with notes := st.notes ++ [note] }

/-- The note-loop state after processing the whole note list. -/
def noteStateOf (mc : MalodyChart) : NoteState :=
  noteLoop (accumulatedBpmChanges mc) (baseBpmOf mc) mc.note 0 ⟨[], [], none, 0⟩

/-- The `serde_json::json!` image of the `audio_files` map. -/
def audioFilesJson (af : List (ℕ × String)) : Json :=
  Json.obj (af.map (fun p => (toString p.1, Json.str p.2)))

/-- `custom_data` (parser.rs lines 245-255): the `extra` object copied
over, then — when at least one non-primary custom sound exists — the
ordinal-keyed sound table under the fixed key `audio_files`. -/
def customDataOf (mc : MalodyChart) : List (String × Json) :=
  let base := (mc.extra.getD []).foldl (fun acc kv => insertKV acc kv.1 kv.2) []
  let af := (noteStateOf mc).audio_files
  if af.isEmpty then base else insertKV base ("audio_files") (audioFilesJson af)

/-- Boolean time-key orders used by the final sorts (parser.rs 269-273). -/
def leBpm (a b : BPMChangeT ℚ) : Bool := a.time ≤ b.time

def leSig (a b : TimeSignatureT ℚ) : Bool := a.time ≤ b.time

def leSpeed (a b : SpeedChangeT ℚ) : Bool := a.time ≤ b.time

def leNote (a b : NoteT ℚ) : Bool := a.start_time ≤ b.start_time

def leEvent (a b : ChartEventT ℚ) : Bool := a.time ≤ b.time

/-- parser.rs `MalodyParser::convert_to_chart` (lines 98-276), in the
exact-arithmetic idealization: build metadata, run the three loops in
order, assemble `custom_data`, and stably sort every timeline and the
note list ascending by absolute time. -/
def convert_to_chart (mc : MalodyChart) : Chart :=
  let ns := noteStateOf mc
  let es := effectStateOf mc
  let metadata : ChartMetadata :=
    { title := mc.meta.song.title
      title_original := mc.meta.song.titleorg
      artist := mc.meta.song.artist
      artist_original := mc.meta.song.artistorg
      creator := mc.meta.creator
      version := mc.meta.version
      background := mc.meta.background
      audio := ns.audio
      audio_offset := ns.audio_offset
      preview_time := none
      bpm := baseBpmOf mc
      id := mc.meta.id
      mode := mc.meta.mode
      columns := (mc.meta.mode_ext.map (fun ext => ext.column)).getD 4 }
  { metadata := metadata
    bpm_changes := sortByKey leBpm es.bpm_changes
    time_signatures := sortByKey leSig es.time_signatures
    speed_changes := sortByKey leSpeed es.speed_changes
    notes := sortByKey leNote ns.notes
    effects := sortByKey leEvent es.effects
    custom_data := customDataOf mc }

/-- C1: the beat-to-seconds conversion reproduces the spec's worked
examples: with the single tempo breakpoint 120 BPM at beat 0, beat
(4,0,4) converts to 2 seconds; with breakpoints
[(beat 0, 120), (beat 8, 240)], beat (12,0,1) converts to
8·(60/120) + 4·(60/240) = 5 seconds. -/
theorem c1_beat_to_time_worked_examples :
    beat_to_time_with_bpm_changes [⟨0, 120, (0, 0, 1)⟩] (4, 0, 4) 120 = 2 ∧
    beat_to_time_with_bpm_changes
      [⟨0, 120, (0, 0, 1)⟩, ⟨4, 240, (8, 0, 1)⟩] (12, 0, 1) 120 = 5 := by
  constructor <;>
    norm_num [beat_to_time_with_bpm_changes, btwAux, beatValue]

/-! ### Library lemmas about the embedding's sort -/

theorem mem_insertByKey {le : α → α → Bool} {a x : α} {l : List α} :
    x ∈ insertByKey le a l ↔ x = a ∨ x ∈ l := by
  induction l with
  | nil => simp [insertByKey]
  | cons b bs ih =>
      by_cases h : le a b = true
      · simp [insertByKey, h]
      · simp only [insertByKey, if_neg h, List.mem_cons, ih]
        tauto

theorem mem_sortByKey {le : α → α → Bool} {x : α} {l : List α} :
    x ∈ sortByKey le l ↔ x ∈ l := by
  induction l with
  | nil => simp [sortByKey]
  | cons a as ih => simp [sortByKey, mem_insertByKey, ih]

/-! ### The two beat→time walks agree on a common breakpoint list -/

theorem b2tAux_eq_btwAux (tgt : ℚ) (L : List (BPMChangeT ℚ)) :
    ∀ time cb bpm : ℚ, cb ≤ tgt →
      b2tAux tgt L time cb bpm = btwAux tgt L time cb bpm := by
  induction L with
  | nil =>
      intro time cb bpm h
      rcases lt_or_eq_of_le h with h' | h'
      · simp [b2tAux, btwAux, h']
      · simp [b2tAux, btwAux, h']
  | cons c rest ih =>
      intro time cb bpm h
      have hcb : cb + (beatValue c.beat - cb) = beatValue c.beat := by ring
      simp only [b2tAux, btwAux, hcb]
      by_cases hc : beatValue c.beat ≤ tgt
      · rw [if_pos hc, if_pos hc, ih _ _ _ hc]
      · rw [if_neg hc, if_neg hc]

theorem chart_walk_eq_parser_walk (L : List (BPMChangeT ℚ)) (tb : Beat) (d : ℚ)
    (h : L ≠ [] ∨ 0 ≤ beatValue tb) :
    b2tAux (beatValue tb) L 0 0 d = beat_to_time_with_bpm_changes L tb d := by
  cases L with
  | nil =>
      have ht : 0 ≤ beatValue tb := by
        rcases h with h | h
        · exact absurd rfl h
        · exact h
      rcases lt_or_eq_of_le ht with h' | h'
      · simp [b2tAux, beat_to_time_with_bpm_changes, h']
      · simp [b2tAux, beat_to_time_with_bpm_changes, ← h']
  | cons c rest =>
      simp only [beat_to_time_with_bpm_changes, List.isEmpty_cons, if_neg Bool.false_ne_true]
      have hcb : (0 : ℚ) + (beatValue c.beat - 0) = beatValue c.beat := by ring
      simp only [b2tAux, btwAux, hcb]
      by_cases hc : beatValue c.beat ≤ beatValue tb
      · rw [if_pos hc, if_pos hc, b2tAux_eq_btwAux _ _ _ _ _ hc]
      · rw [if_neg hc, if_neg hc]

/-! ### Structural facts about the conversion loops -/

theorem timeLoop_append (base : ℚ) (l : List MalodyTimePoint) :
    ∀ acc, ∃ tail, timeLoop base l acc = acc ++ tail := by
  induction l with
  | nil => intro acc; exact ⟨[], by simp [timeLoop]⟩
  | cons tp rest ih =>
      intro acc
      obtain ⟨tail, htail⟩ := ih
        (acc ++ [⟨beat_to_time_with_bpm_changes acc tp.beat base, tp.bpm, tp.beat⟩])
      refine ⟨⟨beat_to_time_with_bpm_changes acc tp.beat base, tp.bpm, tp.beat⟩ :: tail, ?_⟩
      rw [timeLoop, htail]
      simp

theorem effectLoop_bpm_append (base : ℚ) (l : List MalodyEffect) :
    ∀ st, ∃ tail, (effectLoop base l st).bpm_changes = st.bpm_changes ++ tail := by
  induction l with
  | nil => intro st; exact ⟨[], by simp [effectLoop]⟩
  | cons e rest ih =>
      intro st
      simp only [effectLoop]
      split
      · obtain ⟨tail, htail⟩ := ih
          { st with bpm_changes := st.bpm_changes ++
              [⟨beat_to_time_with_bpm_changes st.bpm_changes e.beat base, e.value, e.beat⟩] }
        refine ⟨⟨beat_to_time_with_bpm_changes st.bpm_changes e.beat base, e.value, e.beat⟩ :: tail, ?_⟩
        rw [htail]
        simp
      · exact ih _
      · exact ih _
      · exact ih _

theorem accumulatedBpmChanges_ne_nil (mc : MalodyChart) (h : mc.time ≠ []) :
    accumulatedBpmChanges mc ≠ [] := by
  obtain ⟨tail, htail⟩ := effectLoop_bpm_append (baseBpmOf mc) mc.effect
    ⟨primaryBpmChanges mc, [], [], []⟩
  have hp : primaryBpmChanges mc ≠ [] := by
    cases htime : mc.time with
    | nil => exact absurd htime h
    | cons tp rest =>
        unfold primaryBpmChanges
        rw [htime]
        simp only [timeLoop]
        obtain ⟨tail', htail'⟩ := timeLoop_append (baseBpmOf mc) rest
          ([] ++ [⟨beat_to_time_with_bpm_changes [] tp.beat (baseBpmOf mc), tp.bpm, tp.beat⟩])
        rw [htail']
        simp
  unfold accumulatedBpmChanges effectStateOf
  rw [htail]
  simp [hp]

theorem noteLoop_start_time (bc : List (BPMChangeT ℚ)) (base : ℚ)
    (l : List MalodyNote) :
    ∀ (i : ℕ) (st : NoteState),
      (∀ x ∈ st.notes, x.start_time = beat_to_time_with_bpm_changes bc x.beat base) →
      ∀ x ∈ (noteLoop bc base l i st).notes,
        x.start_time = beat_to_time_with_bpm_changes bc x.beat base := by
  induction l with
  | nil => intro i st h; simpa [noteLoop] using h
  | cons n rest ih =>
      intro i st h
      cases hs : n.sound with
      | none =>
          simp only [noteLoop, hs]
          apply ih
          intro x hx
          rcases List.mem_append.mp hx with hx | hx
          · exact h x hx
          · simp only [List.mem_singleton] at hx
            subst hx
            rfl
      | some s =>
          simp only [noteLoop, hs]
          by_cases hc : noteTypeOf n.note_type = NoteType.tap ∧ n.column = 0 ∧ i = 0
          · rw [if_pos hc]
            exact ih _ _ h
          · rw [if_neg hc]
            apply ih
            intro x hx
            rcases List.mem_append.mp hx with hx | hx
            · exact h x hx
            · simp only [List.mem_singleton] at hx
              subst hx
              rfl

/-- C2 (amended): whenever the primary tempo list is nonempty and the
parser's accumulated breakpoint list is left unchanged by the final
time-sort, the chart-level conversion `Chart::beat_to_time` reproduces
every note's stored `start_time`. -/
theorem c2_chart_beat_to_time_consistency (mc : MalodyChart)
    (h1 : mc.time ≠ [])
    (h2 : sortByKey leBpm (accumulatedBpmChanges mc) = accumulatedBpmChanges mc) :
    ∀ n ∈ (convert_to_chart mc).notes,
      (convert_to_chart mc).beat_to_time n.beat = n.start_time := by
  intro n hn
  have hmem : n ∈ (noteStateOf mc).notes := by
    have hsorted : n ∈ sortByKey leNote (noteStateOf mc).notes := hn
    exact mem_sortByKey.mp hsorted
  have hst := noteLoop_start_time (accumulatedBpmChanges mc) (baseBpmOf mc) mc.note 0
    ⟨[], [], none, 0⟩ (by intro x hx; simp at hx) n hmem
  have hne := accumulatedBpmChanges_ne_nil mc h1
  show b2tAux (beatValue n.beat) (sortByKey leBpm (accumulatedBpmChanges mc)) 0 0
      (baseBpmOf mc) = n.start_time
  rw [h2, chart_walk_eq_parser_walk _ _ _ (Or.inl hne)]
  exact hst.symm

/-- The concrete input refuting C2 as stated: the type-1 effect entry at
beat 4 arrives after the primary entry at beat 8, so the accumulated
breakpoint list is not in beat order and the time-sorted walk disagrees
with the accumulate-as-you-go walk. -/
def metaX : MalodyMeta :=
  { ver := none
    creator := "c"
    background := none
    version := "v"
    id := none
    mode := 0
    time := none
    song := { title := "t", artist := "a", titleorg := none, artistorg := none, id := none }
    mode_ext := none }

def mcC2 : MalodyChart :=
  { meta := metaX
    time := [⟨(0, 0, 1), 120⟩, ⟨(8, 0, 1), 240⟩]
    effect := [⟨(4, 0, 1), 1, 60⟩]
    note := [⟨(12, 0, 1), 1, none, none, none, none, none⟩]
    extra := none }

theorem mcC2_acc : accumulatedBpmChanges mcC2 =
    [⟨0, 120, (0, 0, 1)⟩, ⟨4, 240, (8, 0, 1)⟩, ⟨2, 60, (4, 0, 1)⟩] := by
  norm_num [accumulatedBpmChanges, effectStateOf, effectLoop, primaryBpmChanges,
    timeLoop, baseBpmOf, mcC2, metaX, beat_to_time_with_bpm_changes, btwAux, beatValue]

theorem mcC2_notes : (convert_to_chart mcC2).notes =
    [⟨0, 11, none, 1, NoteType.tap, (12, 0, 1), none, none⟩] := by
  show sortByKey leNote (noteStateOf mcC2).notes = _
  unfold noteStateOf
  rw [mcC2_acc]
  norm_num [mcC2, metaX, noteLoop, noteTypeOf, sortByKey, insertByKey,
    beat_to_time_with_bpm_changes, btwAux, beatValue, baseBpmOf]

theorem mcC2_chart_b2t : (convert_to_chart mcC2).beat_to_time (12, 0, 1) = 7 := by
  show b2tAux (beatValue (12, 0, 1)) (sortByKey leBpm (accumulatedBpmChanges mcC2)) 0 0
      (baseBpmOf mcC2) = 7
  rw [mcC2_acc]
  norm_num [mcC2, metaX, baseBpmOf, sortByKey, insertByKey, leBpm, b2tAux, beatValue,
    decide_eq_true_eq]

/-- C2 counterexample: for the concrete parsed chart `convert_to_chart mcC2`
the chart-level conversion does not return the note's stored start time
(it returns 7 s where the parser stored 11 s). -/
theorem c2_counterexample :
    ¬ ∀ n ∈ (convert_to_chart mcC2).notes,
        (convert_to_chart mcC2).beat_to_time n.beat = n.start_time := by
  intro h
  have hm : (⟨0, 11, none, 1, NoteType.tap, (12, 0, 1), none, none⟩ : NoteT ℚ) ∈
      (convert_to_chart mcC2).notes := by
    rw [mcC2_notes]
    exact List.mem_singleton_self _
  have h11 := h _ hm
  rw [mcC2_chart_b2t] at h11
  norm_num at h11

/-- Witness input for the amended C2: a single breakpoint, one note. -/
def mcW2 : MalodyChart :=
  { meta := metaX
    time := [⟨(0, 0, 1), 120⟩]
    effect := []
    note := [⟨(4, 0, 4), 1, none, none, none, none, none⟩]
    extra := none }

theorem mcW2_acc : accumulatedBpmChanges mcW2 = [⟨0, 120, (0, 0, 1)⟩] := by
  norm_num [accumulatedBpmChanges, effectStateOf, effectLoop, primaryBpmChanges,
    timeLoop, baseBpmOf, mcW2, metaX, beat_to_time_with_bpm_changes, btwAux, beatValue]

theorem mcW2_notes : (convert_to_chart mcW2).notes =
    [⟨0, 2, none, 1, NoteType.tap, (4, 0, 4), none, none⟩] := by
  show sortByKey leNote (noteStateOf mcW2).notes = _
  unfold noteStateOf
  rw [mcW2_acc]
  norm_num [mcW2, metaX, noteLoop, noteTypeOf, sortByKey, insertByKey,
    beat_to_time_with_bpm_changes, btwAux, beatValue, baseBpmOf]

theorem c2_witness : (convert_to_chart mcW2).beat_to_time (4, 0, 4) = 2 := by
  have happ := c2_chart_beat_to_time_consistency mcW2
    (by simp [mcW2]) (by rw [mcW2_acc]; simp [sortByKey, insertByKey])
  have hm : (⟨0, 2, none, 1, NoteType.tap, (4, 0, 4), none, none⟩ : NoteT ℚ) ∈
      (convert_to_chart mcW2).notes := by
    rw [mcW2_notes]
    exact List.mem_singleton_self _
  simpa using happ _ hm

/-! ### Where each parsed note's fields come from (parser.rs lines 199-242) -/

/-- The parsed note with ordinal `id` is the image of the source note at
the same position: its start time is the conversion of the source beat
against the fully-accumulated breakpoint list, and its end time is
present exactly when the source note carried an `end` beat — whatever
the note's type — and is that beat's independent conversion. -/
def NoteFromSource (mc : MalodyChart) (x : NoteT ℚ) : Prop :=
  ∃ src : MalodyNote, mc.note[x.id]? = some src ∧
    x.start_time = beat_to_time_with_bpm_changes (accumulatedBpmChanges mc) src.beat (baseBpmOf mc) ∧
    x.end_time = src.endBeat.map (fun e =>
      beat_to_time_with_bpm_changes (accumulatedBpmChanges mc) e (baseBpmOf mc)) ∧
    x.note_type = noteTypeOf src.note_type ∧
    x.beat = src.beat ∧ x.column = src.column ∧ x.sound = src.sound ∧ x.volume = src.vol

theorem noteLoop_from_source (mc : MalodyChart) :
    ∀ (l : List MalodyNote) (i : ℕ) (st : NoteState),
      mc.note.drop i = l →
      (∀ x ∈ st.notes, NoteFromSource mc x) →
      ∀ x ∈ (noteLoop (accumulatedBpmChanges mc) (baseBpmOf mc) l i st).notes,
        NoteFromSource mc x := by
  intro l
  induction l with
  | nil =>
      intro i st _ h
      simpa [noteLoop] using h
  | cons n rest ih =>
      intro i st hdrop h
      have hi : mc.note[i]? = some n := by
        have hg := List.getElem?_drop mc.note i 0
        rw [hdrop] at hg
        simpa using hg.symm
      have hdrop' : mc.note.drop (i + 1) = rest := by
        have hdd : (mc.note.drop i).drop 1 = mc.note.drop (i + 1) := by
          rw [List.drop_drop]
        rw [← hdd, hdrop]
        simp
      have hnew : NoteFromSource mc
          ⟨i, beat_to_time_with_bpm_changes (accumulatedBpmChanges mc) n.beat (baseBpmOf mc),
            n.endBeat.map (fun e =>
              beat_to_time_with_bpm_changes (accumulatedBpmChanges mc) e (baseBpmOf mc)),
            n.column, noteTypeOf n.note_type, n.beat, n.sound, n.vol⟩ := by
        exact ⟨n, hi, rfl, rfl, rfl, rfl, rfl, rfl, rfl⟩
      cases hs : n.sound with
      | none =>
          simp only [noteLoop, hs]
          apply ih (i + 1) _ hdrop'
          intro x hx
          rcases List.mem_append.mp hx with hx | hx
          · exact h x hx
          · simp only [List.mem_singleton] at hx
            subst hx
            simpa [hs] using hnew
      | some s =>
          simp only [noteLoop, hs]
          by_cases hc : noteTypeOf n.note_type = NoteType.tap ∧ n.column = 0 ∧ i = 0
          · rw [if_pos hc]
            exact ih (i + 1) _ hdrop' h
          · rw [if_neg hc]
            apply ih (i + 1) _ hdrop'
            intro x hx
            rcases List.mem_append.mp hx with hx | hx
            · exact h x hx
            · simp only [List.mem_singleton] at hx
              subst hx
              simpa [hs] using hnew

/-- C5 (amended): in every chart produced by the parser, each note is
the image of the source note at its ordinal; in particular `end_time`
is present exactly when the source note supplied an `end` beat —
irrespective of the note's type — and equals that beat's independent
conversion (no ordering relative to `start_time` is guaranteed). -/
theorem c5_end_time_from_source (mc : MalodyChart) :
    ∀ n ∈ (convert_to_chart mc).notes, NoteFromSource mc n := by
  intro n hn
  have hsorted : n ∈ sortByKey leNote (noteStateOf mc).notes := hn
  have hmem : n ∈ (noteStateOf mc).notes := mem_sortByKey.mp hsorted
  exact noteLoop_from_source mc mc.note 0 ⟨[], [], none, 0⟩ (by simp)
    (by intro x hx; simp at hx) n hmem

/-- The concrete input refuting C5 as stated: a Tap note (no `type`
field) carrying an `end` beat that lies before its start beat. -/
def mcC5 : MalodyChart :=
  { meta := metaX
    time := [⟨(0, 0, 1), 120⟩]
    effect := []
    note := [⟨(1, 0, 1), 1, none, none, none, none, some (0, 0, 1)⟩]
    extra := none }

theorem mcC5_acc : accumulatedBpmChanges mcC5 = [⟨0, 120, (0, 0, 1)⟩] := by
  norm_num [accumulatedBpmChanges, effectStateOf, effectLoop, primaryBpmChanges,
    timeLoop, baseBpmOf, mcC5, metaX, beat_to_time_with_bpm_changes, btwAux, beatValue]

theorem mcC5_notes : (convert_to_chart mcC5).notes =
    [⟨0, 1/2, some 0, 1, NoteType.tap, (1, 0, 1), none, none⟩] := by
  show sortByKey leNote (noteStateOf mcC5).notes = _
  unfold noteStateOf
  rw [mcC5_acc]
  norm_num [mcC5, metaX, noteLoop, noteTypeOf, sortByKey, insertByKey,
    beat_to_time_with_bpm_changes, btwAux, beatValue, baseBpmOf]

/-- C5 counterexample: the parsed chart of `mcC5` has a Tap note whose
`end_time` is present (and even precedes its `start_time`), refuting
both halves of the claimed invariant. -/
theorem c5_counterexample :
    ¬ ∀ n ∈ (convert_to_chart mcC5).notes,
        (n.end_time ≠ none → n.note_type = NoteType.hold) ∧
        (∀ e, n.end_time = some e → n.start_time ≤ e) := by
  intro h
  have hm : (⟨0, 1/2, some 0, 1, NoteType.tap, (1, 0, 1), none, none⟩ : NoteT ℚ) ∈
      (convert_to_chart mcC5).notes := by
    rw [mcC5_notes]
    exact List.mem_singleton_self _
  have hcontra := (h _ hm).1 (by simp)
  simp at hcontra

/-- Witness for the amended C5 at the concrete input `mcC5`: the parsed
note's end time is exactly the independent conversion of the source
note's `end` beat. -/
theorem c5_witness :
    (some (0 : ℚ)) = (some ((0 : Int), (0 : Int), (1 : Int)) : Option Beat).map
      (fun e => beat_to_time_with_bpm_changes (accumulatedBpmChanges mcC5) e (baseBpmOf mcC5)) := by
  have hm : (⟨0, 1/2, some 0, 1, NoteType.tap, (1, 0, 1), none, none⟩ : NoteT ℚ) ∈
      (convert_to_chart mcC5).notes := by
    rw [mcC5_notes]
    exact List.mem_singleton_self _
  obtain ⟨src, hsrc, _, hend, _⟩ := c5_end_time_from_source mcC5 _ hm
  have hsrc' : src = ⟨(1, 0, 1), 1, none, none, none, none, some (0, 0, 1)⟩ := by
    have hlit : mcC5.note[(0 : ℕ)]? =
        some ⟨(1, 0, 1), 1, none, none, none, none, some (0, 0, 1)⟩ := by
      simp [mcC5]
    rw [hlit] at hsrc
    exact (Option.some_inj.mp hsrc).symm
  rw [hsrc'] at hend
  exact hend

/-! ### Facts about the note loop past the first ordinal -/

theorem noteLoop_audio_const (bc : List (BPMChangeT ℚ)) (base : ℚ) :
    ∀ (l : List MalodyNote) (i : ℕ) (st : NoteState), 1 ≤ i →
      (noteLoop bc base l i st).audio = st.audio ∧
      (noteLoop bc base l i st).audio_offset = st.audio_offset := by
  intro l
  induction l with
  | nil => intro i st _; exact ⟨rfl, rfl⟩
  | cons n rest ih =>
      intro i st hi
      cases hs : n.sound with
      | none =>
          simp only [noteLoop, hs]
          exact ih (i + 1) _ (by omega)
      | some s =>
          simp only [noteLoop, hs]
          have hc : ¬ (noteTypeOf n.note_type = NoteType.tap ∧ n.column = 0 ∧ i = 0) := by
            rintro ⟨-, -, h0⟩
            omega
          rw [if_neg hc]
          exact ih (i + 1) _ (by omega)

theorem noteLoop_length (bc : List (BPMChangeT ℚ)) (base : ℚ) :
    ∀ (l : List MalodyNote) (i : ℕ) (st : NoteState), 1 ≤ i →
      (noteLoop bc base l i st).notes.length = st.notes.length + l.length := by
  intro l
  induction l with
  | nil => intro i st _; simp [noteLoop]
  | cons n rest ih =>
      intro i st hi
      cases hs : n.sound with
      | none =>
          simp only [noteLoop, hs]
          rw [ih (i + 1) _ (by omega)]
          simp
          omega
      | some s =>
          simp only [noteLoop, hs]
          have hc : ¬ (noteTypeOf n.note_type = NoteType.tap ∧ n.column = 0 ∧ i = 0) := by
            rintro ⟨-, -, h0⟩
            omega
          rw [if_neg hc, ih (i + 1) _ (by omega)]
          simp
          omega

theorem noteLoop_id_ge (bc : List (BPMChangeT ℚ)) (base : ℚ) :
    ∀ (l : List MalodyNote) (i : ℕ) (st : NoteState),
      ∀ x ∈ (noteLoop bc base l i st).notes, x ∈ st.notes ∨ i ≤ x.id := by
  intro l
  induction l with
  | nil => intro i st x hx; exact Or.inl hx
  | cons n rest ih =>
      intro i st x hx
      cases hs : n.sound with
      | none =>
          simp only [noteLoop, hs] at hx
          rcases ih (i + 1) _ x hx with hmem | hge
          · rcases List.mem_append.mp hmem with hmem | hmem
            · exact Or.inl hmem
            · simp only [List.mem_singleton] at hmem
              subst hmem
              exact Or.inr (le_refl i)
          · exact Or.inr (by omega)
      | some s =>
          simp only [noteLoop, hs] at hx
          by_cases hc : noteTypeOf n.note_type = NoteType.tap ∧ n.column = 0 ∧ i = 0
          · rw [if_pos hc] at hx
            rcases ih (i + 1) _ x hx with hmem | hge
            · exact Or.inl hmem
            · exact Or.inr (by omega)
          · rw [if_neg hc] at hx
            rcases ih (i + 1) _ x hx with hmem | hge
            · rcases List.mem_append.mp hmem with hmem | hmem
              · exact Or.inl hmem
              · simp only [List.mem_singleton] at hmem
                subst hmem
                exact Or.inr (le_refl i)
            · exact Or.inr (by omega)

theorem noteLoop_af_mono (bc : List (BPMChangeT ℚ)) (base : ℚ) :
    ∀ (l : List MalodyNote) (i : ℕ) (st : NoteState) (p : ℕ × String),
      p ∈ st.audio_files → p ∈ (noteLoop bc base l i st).audio_files := by
  intro l
  induction l with
  | nil => intro i st p hp; exact hp
  | cons n rest ih =>
      intro i st p hp
      cases hs : n.sound with
      | none =>
          simp only [noteLoop, hs]
          exact ih (i + 1) _ p hp
      | some s =>
          simp only [noteLoop, hs]
          by_cases hc : noteTypeOf n.note_type = NoteType.tap ∧ n.column = 0 ∧ i = 0
          · rw [if_pos hc]
            exact ih (i + 1) _ p hp
          · rw [if_neg hc]
            exact ih (i + 1) _ p (by simp [hp])

theorem noteLoop_af_complete (bc : List (BPMChangeT ℚ)) (base : ℚ) :
    ∀ (l : List MalodyNote) (i : ℕ) (st : NoteState), 1 ≤ i →
      ∀ (j : ℕ) (src : MalodyNote) (s2 : String), l[j]? = some src →
        src.sound = some s2 → (i + j, s2) ∈ (noteLoop bc base l i st).audio_files := by
  intro l
  induction l with
  | nil => intro i st _ j src s2 hj; simp at hj
  | cons n rest ih =>
      intro i st hi j src s2 hj hsnd
      cases j with
      | zero =>
          have hn : n = src := by simpa using hj
          subst hn
          simp only [noteLoop, hsnd]
          have hc : ¬ (noteTypeOf n.note_type = NoteType.tap ∧ n.column = 0 ∧ i = 0) := by
            rintro ⟨-, -, h0⟩
            omega
          rw [if_neg hc]
          apply noteLoop_af_mono
          simp
      | succ j' =>
          simp only [List.getElem?_cons_succ] at hj
          have hstep : ∀ st' : NoteState,
              (i + 1 + j', s2) ∈ (noteLoop bc base rest (i + 1) st').audio_files :=
            fun st' => ih (i + 1) st' (by omega) j' src s2 hj hsnd
          have harith : i + (j' + 1) = i + 1 + j' := by omega
          rw [harith]
          cases hs : n.sound with
          | none =>
              simp only [noteLoop, hs]
              exact hstep _
          | some s =>
              simp only [noteLoop, hs]
              by_cases hc : noteTypeOf n.note_type = NoteType.tap ∧ n.column = 0 ∧ i = 0
              · rw [if_pos hc]
                exact hstep _
              · rw [if_neg hc]
                exact hstep _

theorem kvFind_insertKV_self (l : List (String × α)) (k : String) (v : α) :
    kvFind (insertKV l k v) k = some v := by
  induction l with
  | nil => simp [insertKV, kvFind]
  | cons kv rest ih =>
      by_cases h : kv.1 = k
      · simp [insertKV, kvFind, h]
      · simp only [insertKV, kvFind]
        rw [if_neg h, kvFind, if_neg h]
        exact ih

theorem length_insertByKey {le : α → α → Bool} (a : α) (l : List α) :
    (insertByKey le a l).length = l.length + 1 := by
  induction l with
  | nil => simp [insertByKey]
  | cons b bs ih =>
      by_cases h : le a b = true
      · simp [insertByKey, h]
      · simp only [insertByKey, if_neg h, List.length_cons, ih]

theorem length_sortByKey {le : α → α → Bool} (l : List α) :
    (sortByKey le l).length = l.length := by
  induction l with
  | nil => rfl
  | cons a as ih => simp [sortByKey, length_insertByKey, ih]

/-- C6: when the very first source note is Tap-typed, on column 0, and
carries a custom sound reference, the parser consumes it as the chart's
audio reference: its sound becomes the primary audio, its offset the
audio offset, it is absent from the note list (one note fewer than the
source, every surviving ordinal ≥ 1), and every other sound-carrying
note is recorded in the ordinal-keyed table merged into the chart's
extension data under the `audio_files` key. -/
theorem c6_audio_reference_heuristic (mc : MalodyChart) (n0 : MalodyNote)
    (rest : List MalodyNote) (s : String)
    (hnote : mc.note = n0 :: rest) (hsound : n0.sound = some s)
    (htap : noteTypeOf n0.note_type = NoteType.tap) (hcol : n0.column = 0) :
    (convert_to_chart mc).metadata.audio = some s ∧
    (convert_to_chart mc).metadata.audio_offset = n0.offset.getD 0 ∧
    (convert_to_chart mc).notes.length = rest.length ∧
    (∀ n ∈ (convert_to_chart mc).notes, 1 ≤ n.id) ∧
    (∀ (i : ℕ) (src : MalodyNote) (s2 : String), mc.note[i]? = some src → i ≠ 0 →
      src.sound = some s2 → ∃ entries,
        kvFind (convert_to_chart mc).custom_data ("audio_files") = some (Json.obj entries) ∧
        (toString i, Json.str s2) ∈ entries) := by
  have hns : noteStateOf mc = noteLoop (accumulatedBpmChanges mc) (baseBpmOf mc) rest 1
      ⟨[], [], some s, n0.offset.getD 0⟩ := by
    unfold noteStateOf
    rw [hnote]
    simp only [noteLoop, hsound]
    rw [if_pos ⟨htap, hcol, trivial⟩]
  refine ⟨?_, ?_, ?_, ?_, ?_⟩
  · show (noteStateOf mc).audio = some s
    rw [hns]
    exact (noteLoop_audio_const _ _ rest 1 _ (le_refl 1)).1
  · show (noteStateOf mc).audio_offset = n0.offset.getD 0
    rw [hns]
    exact (noteLoop_audio_const _ _ rest 1 _ (le_refl 1)).2
  · show (sortByKey leNote (noteStateOf mc).notes).length = rest.length
    rw [length_sortByKey, hns, noteLoop_length _ _ rest 1 _ (le_refl 1)]
    simp
  · intro n hn
    have hsorted : n ∈ sortByKey leNote (noteStateOf mc).notes := hn
    have hmem : n ∈ (noteStateOf mc).notes := mem_sortByKey.mp hsorted
    rw [hns] at hmem
    rcases noteLoop_id_ge _ _ rest 1 _ n hmem with hin | hge
    · simp at hin
    · exact hge
  · intro i src s2 hi hne hsnd
    obtain ⟨j, rfl⟩ : ∃ j, i = j + 1 := by
      cases i with
      | zero => exact absurd rfl hne
      | succ j => exact ⟨j, rfl⟩
    rw [hnote] at hi
    simp only [List.getElem?_cons_succ] at hi
    have hmem : (1 + j, s2) ∈ (noteStateOf mc).audio_files := by
      rw [hns]
      exact noteLoop_af_complete _ _ rest 1 _ (le_refl 1) j src s2 hi hsnd
    have hmem' : (j + 1, s2) ∈ (noteStateOf mc).audio_files := by
      have : 1 + j = j + 1 := by omega
      rwa [this] at hmem
    refine ⟨((noteStateOf mc).audio_files).map (fun p => (toString p.1, Json.str p.2)), ?_, ?_⟩
    · show kvFind (customDataOf mc) ("audio_files") = _
      have hne' : (noteStateOf mc).audio_files.isEmpty = false := by
        cases haf : (noteStateOf mc).audio_files with
        | nil => rw [haf] at hmem'; simp at hmem'
        | cons p ps => simp
      simp only [customDataOf]
      rw [hne', if_neg Bool.false_ne_true]
      exact kvFind_insertKV_self _ _ _
    · exact List.mem_map.mpr ⟨(j + 1, s2), hmem', rfl⟩

/-- Witness input for C6: an audio pseudo-note followed by one keysound note. -/
def mcW6 : MalodyChart :=
  { meta := metaX
    time := [⟨(0, 0, 1), 120⟩]
    effect := []
    note := [⟨(0, 0, 1), 0, some "song.ogg", some 100, some (-10), none, none⟩,
             ⟨(4, 0, 4), 1, some "clap.wav", none, none, none, none⟩]
    extra := none }

/-- Witness for C6 at the concrete input `mcW6`. -/
theorem c6_witness :
    (convert_to_chart mcW6).metadata.audio = some ("song.ogg") ∧
    (convert_to_chart mcW6).metadata.audio_offset = -10 ∧
    (convert_to_chart mcW6).notes.length = 1 := by
  have h := c6_audio_reference_heuristic mcW6
    ⟨(0, 0, 1), 0, some "song.ogg", some 100, some (-10), none, none⟩
    [⟨(4, 0, 4), 1, some "clap.wav", none, none, none, none⟩]
    "song.ogg" rfl rfl rfl rfl
  exact ⟨h.1, h.2.1, h.2.2.1⟩

/-! ### The identity hash (manager.rs `generate_chart_id`, lines 222-239).
The source feeds `format!("{}_{}_{}_{}", title, artist, creator, version)`
to the `sha2` crate's SHA-256 and hex-encodes the first 8 digest bytes.
SHA-256 itself lives outside this repository; it is embedded below from
FIPS 180-4 as pure 32-bit (`% 2^32`) natural-number arithmetic, and the
implementation is pinned by the standard `"abc"` test vector. -/

def add32 (a b : ℕ) : ℕ := (a + b) % 4294967296

def rotr32 (n x : ℕ) : ℕ := (x / 2 ^ n + x % 2 ^ n * 2 ^ (32 - n)) % 4294967296

def shr32 (n x : ℕ) : ℕ := x / 2 ^ n

def not32 (a : ℕ) : ℕ := Nat.xor a 4294967295

def bigSigma0 (x : ℕ) : ℕ := Nat.xor (Nat.xor (rotr32 2 x) (rotr32 13 x)) (rotr32 22 x)

def bigSigma1 (x : ℕ) : ℕ := Nat.xor (Nat.xor (rotr32 6 x) (rotr32 11 x)) (rotr32 25 x)

def smallSigma0 (x : ℕ) : ℕ := Nat.xor (Nat.xor (rotr32 7 x) (rotr32 18 x)) (shr32 3 x)

def smallSigma1 (x : ℕ) : ℕ := Nat.xor (Nat.xor (rotr32 17 x) (rotr32 19 x)) (shr32 10 x)

def chFn (e f g : ℕ) : ℕ := Nat.xor (Nat.land e f) (Nat.land (not32 e) g)

def majFn (a b c : ℕ) : ℕ := Nat.xor (Nat.xor (Nat.land a b) (Nat.land a c)) (Nat.land b c)

def sha256K : List ℕ :=
  [1116352408, 1899447441, 3049323471, 3921009573, 961987163, 1508970993,
   2453635748, 2870763221, 3624381080, 310598401, 607225278, 1426881987,
   1925078388, 2162078206, 2614888103, 3248222580, 3835390401, 4022224774,
   264347078, 604807628, 770255983, 1249150122, 1555081692, 1996064986,
   2554220882, 2821834349, 2952996808, 3210313671, 3336571891, 3584528711,
   113926993, 338241895, 666307205, 773529912, 1294757372, 1396182291,
   1695183700, 1986661051, 2177026350, 2456956037, 2730485921, 2820302411,
   3259730800, 3345764771, 3516065817, 3600352804, 4094571909, 275423344,
   430227734, 506948616, 659060556, 883997877, 958139571, 1322822218,
   1537002063, 1747873779, 1955562222, 2024104815, 2227730452, 2361852424,
   2428436474, 2756734187, 3204031479, 3329325298]

structure Hash8 where
  a : ℕ
  b : ℕ
  c : ℕ
  d : ℕ
  e : ℕ
  f : ℕ
  g : ℕ
  h : ℕ

def sha256H0 : Hash8 :=
  ⟨1779033703, 3144134277, 1013904242, 2773480762,
   1359893119, 2600822924, 528734635, 1541459225⟩

def compressStep (st : Hash8) (kw : ℕ × ℕ) : Hash8 :=
  let t1 := add32 st.h (add32 (bigSigma1 st.e) (add32 (chFn st.e st.f st.g) (add32 kw.1 kw.2)))
  let t2 := add32 (bigSigma0 st.a) (majFn st.a st.b st.c)
  ⟨add32 t1 t2, st.a, st.b, st.c, add32 st.d t1, st.e, st.f, st.g⟩

def wordsOfChunk (c : List ℕ) : List ℕ :=
  (List.range 16).map (fun j =>
    c.getD (4 * j) 0 * 16777216 + c.getD (4 * j + 1) 0 * 65536 +
      c.getD (4 * j + 2) 0 * 256 + c.getD (4 * j + 3) 0)

def extendSchedule : ℕ → List ℕ → List ℕ
  | 0, ws => ws
  | n + 1, ws =>
      extendSchedule n (ws ++
        [add32 (add32 (smallSigma1 (ws.getD (ws.length - 2) 0)) (ws.getD (ws.length - 7) 0))
          (add32 (smallSigma0 (ws.getD (ws.length - 15) 0)) (ws.getD (ws.length - 16) 0))])

def compressChunk (st : Hash8) (chunk : List ℕ) : Hash8 :=
  let ws := extendSchedule 48 (wordsOfChunk chunk)
  let r := (sha256K.zip ws).foldl compressStep st
  ⟨add32 st.a r.a, add32 st.b r.b, add32 st.c r.c, add32 st.d r.d,
   add32 st.e r.e, add32 st.f r.f, add32 st.g r.g, add32 st.h r.h⟩

def chunksAux : ℕ → List ℕ → List (List ℕ)
  | 0, _ => []
  | _, [] => []
  | fuel + 1, x :: rest => ((x :: rest).take 64) :: chunksAux fuel ((x :: rest).drop 64)

def chunks64 (l : List ℕ) : List (List ℕ) := chunksAux l.length l

def lenBytes8 (n : ℕ) : List ℕ :=
  [n / 2 ^ 56 % 256, n / 2 ^ 48 % 256, n / 2 ^ 40 % 256, n / 2 ^ 32 % 256,
   n / 2 ^ 24 % 256, n / 2 ^ 16 % 256, n / 2 ^ 8 % 256, n % 256]

def wordBytes (w : ℕ) : List ℕ := [w / 16777216 % 256, w / 65536 % 256, w / 256 % 256, w % 256]

def padLen (len : ℕ) : ℕ := (64 - (len + 9) % 64) % 64

def sha256 (msg : List ℕ) : List ℕ :=
  let padded := msg ++ [128] ++ List.replicate (padLen msg.length) 0 ++
    lenBytes8 (8 * msg.length % 2 ^ 64)
  let hf := (chunks64 padded).foldl compressChunk sha256H0
  wordBytes hf.a ++ wordBytes hf.b ++ wordBytes hf.c ++ wordBytes hf.d ++
    wordBytes hf.e ++ wordBytes hf.f ++ wordBytes hf.g ++ wordBytes hf.h

def hexTable : List Char := ("0123456789abcdef").data

def hexDigit (n : ℕ) : Char := hexTable.getD (n % 16) '0'

/-- `hex::encode`: lowercase hexadecimal of a byte list. -/
def hexEncode (bytes : List ℕ) : String :=
  String.mk ((bytes.map (fun b => [hexDigit (b / 16), hexDigit (b % 16)])).flatten)

/-- The UTF-8 encoding of a character (what feeding a Rust `String` to
the hasher hashes). -/
def utf8Bytes (c : Char) : List ℕ :=
  let n := c.toNat
  if n < 128 then [n]
  else if n < 2048 then [192 + n / 64, 128 + n % 64]
  else if n < 65536 then [224 + n / 4096, 128 + n / 64 % 64, 128 + n % 64]
  else [240 + n / 262144, 128 + n / 4096 % 64, 128 + n / 64 % 64, 128 + n % 64]

def strBytes (s : String) : List ℕ := (s.data.map utf8Bytes).flatten

/-- The SHA-256 embedding is pinned by the FIPS 180-4 test vector. -/
theorem sha256_test_vector :
    hexEncode (sha256 (strBytes ("abc"))) =
      "ba7816bf8f01cfea414140de5dae2223b00361a396177a9cb410ff61f20015ad" := by
  decide

/-- manager.rs line 226: `format!("{}_{}_{}_{}", title, artist, creator, version)`. -/
def idString (metadata : ChartMetadata) : String :=
  metadata.title ++ "_" ++ metadata.artist ++ "_" ++ metadata.creator ++ "_" ++ metadata.version

/-- manager.rs `ChartManager::generate_chart_id`. -/
def generate_chart_id (chart : Chart) : String :=
  hexEncode ((sha256 (strBytes (idString chart.metadata))).take 8)

theorem sha256_length (msg : List ℕ) : (sha256 msg).length = 32 := by
  simp [sha256, wordBytes]

theorem length_flatten_pairs (f g : ℕ → Char) (l : List ℕ) :
    ((l.map (fun b => [f b, g b])).flatten).length = 2 * l.length := by
  induction l with
  | nil => rfl
  | cons b bs ih =>
      simp only [List.map_cons, List.flatten_cons, List.length_append, ih]
      simp
      omega

theorem hexEncode_length (bytes : List ℕ) : (hexEncode bytes).data.length = 2 * bytes.length :=
  length_flatten_pairs _ _ bytes

theorem generate_chart_id_length (c : Chart) : (generate_chart_id c).data.length = 16 := by
  unfold generate_chart_id
  rw [hexEncode_length, List.length_take, sha256_length]
  rfl

theorem hexDigit_toNat_lt (n : ℕ) : (hexDigit n).toNat < 256 := by
  have h16 : n % 16 < 16 := Nat.mod_lt _ (by norm_num)
  unfold hexDigit
  generalize n % 16 = j at h16 ⊢
  interval_cases j <;> decide

theorem hexEncode_char_lt (bytes : List ℕ) : ∀ c ∈ (hexEncode bytes).data, c.toNat < 256 := by
  intro c hc
  simp only [hexEncode, List.mem_flatten, List.mem_map] at hc
  obtain ⟨l, ⟨b, _, hb⟩, hcl⟩ := hc
  subst hb
  simp only [List.mem_cons, List.not_mem_nil, or_false] at hcl
  rcases hcl with h | h
  · subst h
    exact hexDigit_toNat_lt _
  · subst h
    exact hexDigit_toNat_lt _

theorem char_toNat_inj {c d : Char} (h : c.toNat = d.toNat) : c = d := by
  have hc := Char.ofNat_toNat c
  have hd := Char.ofNat_toNat d
  rw [← hc, ← hd, h]

/-- C3 (amended): the identity hash is the lowercase-hex encoding of the
first 8 bytes of SHA-256 of `title_artist_creator_version`; it is a pure
function of those four metadata fields (identical fields give identical
identities for any note content); and changing any one of the four
fields while the other three are fixed changes the hashed input string
(so the identity changes except in the astronomically unlikely event of
a 64-bit truncated-hash collision, which the pigeonhole counterexample
shows cannot be ruled out outright). -/
theorem c3_chart_identity (c₁ c₂ : Chart) :
    (generate_chart_id c₁ = hexEncode ((sha256 (strBytes
        (c₁.metadata.title ++ "_" ++ c₁.metadata.artist ++ "_" ++
         c₁.metadata.creator ++ "_" ++ c₁.metadata.version))).take 8)) ∧
    (c₁.metadata.title = c₂.metadata.title → c₁.metadata.artist = c₂.metadata.artist →
      c₁.metadata.creator = c₂.metadata.creator → c₁.metadata.version = c₂.metadata.version →
      generate_chart_id c₁ = generate_chart_id c₂) ∧
    (c₁.metadata.artist = c₂.metadata.artist → c₁.metadata.creator = c₂.metadata.creator →
      c₁.metadata.version = c₂.metadata.version → c₁.metadata.title ≠ c₂.metadata.title →
      idString c₁.metadata ≠ idString c₂.metadata) ∧
    (c₁.metadata.title = c₂.metadata.title → c₁.metadata.creator = c₂.metadata.creator →
      c₁.metadata.version = c₂.metadata.version → c₁.metadata.artist ≠ c₂.metadata.artist →
      idString c₁.metadata ≠ idString c₂.metadata) ∧
    (c₁.metadata.title = c₂.metadata.title → c₁.metadata.artist = c₂.metadata.artist →
      c₁.metadata.version = c₂.metadata.version → c₁.metadata.creator ≠ c₂.metadata.creator →
      idString c₁.metadata ≠ idString c₂.metadata) ∧
    (c₁.metadata.title = c₂.metadata.title → c₁.metadata.artist = c₂.metadata.artist →
      c₁.metadata.creator = c₂.metadata.creator → c₁.metadata.version ≠ c₂.metadata.version →
      idString c₁.metadata ≠ idString c₂.metadata) := by
  refine ⟨rfl, ?_, ?_, ?_, ?_, ?_⟩
  · intro ht ha hc hv
    unfold generate_chart_id idString
    rw [ht, ha, hc, hv]
  · intro ha hc hv hne heq
    apply hne
    apply String.ext
    have h := congrArg String.data heq
    simp only [idString, String.data_append, ha, hc, hv, List.append_assoc] at h
    exact List.append_cancel_right h
  · intro ht hc hv hne heq
    apply hne
    apply String.ext
    have h := congrArg String.data heq
    simp only [idString, String.data_append, ht, hc, hv, List.append_assoc] at h
    have h' := List.append_cancel_left (List.append_cancel_left h)
    exact List.append_cancel_right ((List.append_assoc _ _ _).symm.trans
      ((h'.symm.trans (List.append_assoc _ _ _).symm).symm))
  · intro ht ha hv hne heq
    apply hne
    apply String.ext
    have h := congrArg String.data heq
    simp only [idString, String.data_append, ht, ha, hv, List.append_assoc] at h
    have h' := List.append_cancel_left (List.append_cancel_left
      (List.append_cancel_left (List.append_cancel_left h)))
    exact List.append_cancel_right ((List.append_assoc _ _ _).symm.trans
      ((h'.symm.trans (List.append_assoc _ _ _).symm).symm))
  · intro ht ha hc hne heq
    apply hne
    apply String.ext
    have h := congrArg String.data heq
    simp only [idString, String.data_append, ht, ha, hc, List.append_assoc] at h
    exact List.append_cancel_left (List.append_cancel_left (List.append_cancel_left
      (List.append_cancel_left (List.append_cancel_left (List.append_cancel_left h)))))

/-- Concrete charts for the C3 witness. -/
def metaA : ChartMetadata :=
  ⟨"t", none, "a", none, "c", "v", none, none, 0, none, 120, none, 0, 4⟩

def chartA : Chart := ⟨metaA, [], [], [], [], [], []⟩

def chartB : Chart :=
  ⟨metaA, [], [], [], [⟨0, 1, none, 0, NoteType.tap, (0, 0, 1), none, none⟩], [], []⟩

def chartC : Chart := ⟨{ metaA with title := "t2" }, [], [], [], [], [], []⟩

/-- Witness for C3: two charts with identical metadata but different
note content share their identity; a differing title changes the hashed
input string. -/
theorem c3_witness :
    generate_chart_id chartA = generate_chart_id chartB ∧
    idString chartA.metadata ≠ idString chartC.metadata := by
  constructor
  · exact (c3_chart_identity chartA chartB).2.1 rfl rfl rfl rfl
  · exact (c3_chart_identity chartC chartA).2.2.1 rfl rfl rfl (by decide) ∘ Eq.symm

/-- A chart whose title is `n` repetitions of the letter a. -/
def chartTitled (n : ℕ) : Chart :=
  ⟨{ metaA with title := String.mk (List.replicate n 'a') }, [], [], [], [], [], []⟩

/-- C3 counterexample: the conjunct "changing any one of the four fields
changes the identity" is refuted nonconstructively — the identity is 16
hex characters (at most 2^64 values) while titles are unbounded, so by
pigeonhole two charts differing only in the title share an identity. -/
theorem c3_counterexample :
    ¬ ∀ c₁ c₂ : Chart,
        c₁.metadata.artist = c₂.metadata.artist →
        c₁.metadata.creator = c₂.metadata.creator →
        c₁.metadata.version = c₂.metadata.version →
        c₁.metadata.title ≠ c₂.metadata.title →
        generate_chart_id c₁ ≠ generate_chart_id c₂ := by
  intro hclaim
  let F : ℕ → (Fin 16 → Fin 256) := fun n i =>
    ⟨((generate_chart_id (chartTitled n)).data.getD i 'a').toNat % 256,
      Nat.mod_lt _ (by norm_num)⟩
  obtain ⟨m, n, hmn, hF⟩ := Finite.exists_ne_map_eq_of_infinite F
  have htitle : (chartTitled m).metadata.title ≠ (chartTitled n).metadata.title := by
    intro h
    apply hmn
    have hdata := congrArg String.data h
    simp only [chartTitled] at hdata
    have := congrArg List.length hdata
    simpa using this
  have hid : generate_chart_id (chartTitled m) = generate_chart_id (chartTitled n) := by
    apply String.ext
    apply List.ext_getElem
    · rw [generate_chart_id_length, generate_chart_id_length]
    · intro i h₁ h₂
      have hi : i < 16 := by rwa [generate_chart_id_length] at h₁
      have hFi := congrFun hF ⟨i, hi⟩
      simp only [F, Fin.mk.injEq] at hFi
      have hlt₁ : ((generate_chart_id (chartTitled m)).data.getD i 'a').toNat < 256 := by
        rw [List.getD_eq_getElem _ _ h₁]
        exact hexEncode_char_lt _ _ (List.getElem_mem h₁)
      have hlt₂ : ((generate_chart_id (chartTitled n)).data.getD i 'a').toNat < 256 := by
        rw [List.getD_eq_getElem _ _ h₂]
        exact hexEncode_char_lt _ _ (List.getElem_mem h₂)
      rw [Nat.mod_eq_of_lt hlt₁, Nat.mod_eq_of_lt hlt₂] at hFi
      have hchar := char_toNat_inj hFi
      rwa [List.getD_eq_getElem _ _ h₁, List.getD_eq_getElem _ _ h₂] at hchar
  exact hclaim (chartTitled m) (chartTitled n) rfl rfl rfl htitle hid

/-! ### Difficulty heuristic (manager.rs `calculate_difficulty_level`,
lines 241-261).  The source computes with `f64` and `f64::sqrt`; the
embedding uses ℝ and `Real.sqrt` (the claimed facts — the shape of the
formula and the 1..30 range — do not depend on rounding).  Rust's
`.round() as u8` is `round` into ℤ; on the clamped range 1..30 the cast
is lossless and round-half-away-from-zero agrees with `round`. -/

noncomputable def calculate_difficulty_level (chart : Chart) : ℤ :=
  let note_count : ℝ := (chart.notes.length : ℝ)
  let duration : ℝ := ((Chart.duration chart : ℚ) : ℝ)
  let density : ℝ := note_count / max duration 1
  let avg_bpm : ℝ := ((chart.metadata.bpm : ℚ) : ℝ)
  let hold_notes : ℝ :=
    ((chart.notes.filter (fun n => n.note_type = NoteType.hold)).length : ℝ)
  let base_level : ℝ := Real.sqrt (density * avg_bpm / 5000) * 20
  let hold_bonus : ℝ := (hold_notes / max note_count 1) * 5
  let level : ℝ := min (max (base_level + hold_bonus) 1) 30
  round level

/-- C4: the difficulty level equals
`round (clamp (sqrt((note_count / max(duration,1)) · tempo / 5000) · 20
+ (hold_count / max(note_count,1)) · 5, 1, 30))`, and for every chart
with non-negative tempo the result lies in [1, 30]. -/
theorem c4_difficulty_level (chart : Chart) :
    calculate_difficulty_level chart =
      round (min (max (Real.sqrt (((chart.notes.length : ℝ) /
            max ((Chart.duration chart : ℚ) : ℝ) 1) * ((chart.metadata.bpm : ℚ) : ℝ) / 5000) * 20 +
          (((chart.notes.filter (fun n => n.note_type = NoteType.hold)).length : ℝ) /
            max (chart.notes.length : ℝ) 1) * 5) 1) 30) ∧
    (0 ≤ chart.metadata.bpm →
      1 ≤ calculate_difficulty_level chart ∧ calculate_difficulty_level chart ≤ 30) := by
  have round_clamp_range : ∀ x : ℝ,
      1 ≤ round (min (max x 1) 30) ∧ round (min (max x 1) 30) ≤ 30 := by
    intro x
    have h1 : (1 : ℝ) ≤ min (max x 1) 30 := le_min (le_max_right x 1) (by norm_num)
    have h30 : min (max x 1) 30 ≤ (30 : ℝ) := min_le_right _ _
    constructor
    · rw [round_eq, Int.le_floor]
      push_cast
      linarith
    · rw [round_eq]
      have hlt : ⌊min (max x 1) 30 + 1 / 2⌋ < 31 := by
        rw [Int.floor_lt]
        push_cast
        linarith
      omega
  exact ⟨rfl, fun _ => round_clamp_range _⟩

/-- Witness for C4 at the concrete empty chart (level computes to 1). -/
theorem c4_witness :
    1 ≤ calculate_difficulty_level chartA ∧ calculate_difficulty_level chartA ≤ 30 :=
  (c4_difficulty_level chartA).2 (by norm_num [chartA, metaA])

/-! ### The library index (manager.rs lines 10-59).
`chrono` timestamps are modelled as ℕ; the difficulty level as ℤ
(the source `u8` value is proved to lie in 1..30 by C4); the `f32`
rating as ℚ. -/

structure ChartPreview where
  start_time : ℚ
  duration : ℚ

structure ChartDifficulty where
  name : String
  level : ℤ
  note_count : ℕ
  duration : ℚ
  file_path : String
  mode : ℕ
  columns : ℕ
  preview : Option ChartPreview

structure ChartInfo where
  id : String
  title : String
  artist : String
  creator : String
  version : String
  bpm : ℚ
  difficulties : List ChartDifficulty
  audio_path : Option String
  background_path : Option String
  source_file : String
  import_date : ℕ
  play_count : ℕ
  last_played : Option ℕ
  rating : Option ℚ
  tags : List String

structure ChartIndex where
  charts : List (String × ChartInfo)
  last_update : ℕ
  version : ℕ

/-- The error taxonomy (error.rs), restricted to the variants the chart
core constructs. -/
inductive CoreError where
  | io (msg : String)
  | zip (msg : String)
  | serdeJson (msg : String)
  | walkDir (msg : String)
  | parse (msg : String)
  | system (msg : String)

/-! ### Search (manager.rs `search_charts`, lines 319-332) -/

/-- ASCII lowercasing, the embedding of `str::to_lowercase` (all strings
exercised by the claims are ASCII). -/
def lowerChar (c : Char) : Char :=
  if 65 ≤ c.toNat ∧ c.toNat ≤ 90 then Char.ofNat (c.toNat + 32) else c

def toLower (s : String) : String := String.mk (s.data.map lowerChar)

/-- Does the first list start with the second? -/
def startsWithL : List Char → List Char → Bool
  | _, [] => true
  | [], _ :: _ => false
  | c :: cs, d :: ds => decide (c = d) && startsWithL cs ds

/-- Does the second list occur contiguously inside the first? -/
def containsSub : List Char → List Char → Bool
  | [], sub => startsWithL [] sub
  | c :: cs, sub => startsWithL (c :: cs) sub || containsSub cs sub

/-- Rust `str::contains(&str)`: substring occurrence. -/
def strContains (s sub : String) : Bool := containsSub s.data sub.data

/-- The filter predicate of `search_charts`: the lowercased query must
occur in the lowercased title, artist or creator — or in a tag taken
verbatim (the source does NOT lowercase the tag). -/
def searchMatches (query_lower : String) (chart : ChartInfo) : Bool :=
  strContains (toLower chart.title) query_lower ||
  strContains (toLower chart.artist) query_lower ||
  strContains (toLower chart.creator) query_lower ||
  chart.tags.any (fun tag => strContains tag query_lower)

/-- manager.rs `ChartManager::search_charts`. -/
def search_charts (index : ChartIndex) (query : String) : List ChartInfo :=
  (index.charts.map (fun kv => kv.2)).filter (searchMatches (toLower query))

/-- Propositional substring occurrence (how the spec phrases matching). -/
def OccursIn (sub s : String) : Prop :=
  ∃ p q, s.data = p ++ sub.data ++ q

theorem startsWithL_iff (sub : List Char) :
    ∀ l, startsWithL l sub = true ↔ ∃ r, l = sub ++ r := by
  induction sub with
  | nil =>
      intro l
      simp [startsWithL]
  | cons d ds ih =>
      intro l
      cases l with
      | nil =>
          simp [startsWithL]
      | cons c cs =>
          simp only [startsWithL, Bool.and_eq_true, decide_eq_true_eq, ih]
          constructor
          · rintro ⟨rfl, r, rfl⟩
            exact ⟨r, rfl⟩
          · rintro ⟨r, hr⟩
            cases hr
            exact ⟨rfl, r, rfl⟩

theorem containsSub_iff (sub : List Char) :
    ∀ l, containsSub l sub = true ↔ ∃ p q, l = p ++ sub ++ q := by
  intro l
  induction l with
  | nil =>
      simp only [containsSub, startsWithL_iff]
      constructor
      · rintro ⟨r, hr⟩
        exact ⟨[], r, hr⟩
      · rintro ⟨p, q, hpq⟩
        have hp : p = [] := by
          cases p with
          | nil => rfl
          | cons a as => simp at hpq
        subst hp
        simp only [List.nil_append] at hpq
        exact ⟨q, hpq⟩

  | cons c cs ih =>
      simp only [containsSub, Bool.or_eq_true, startsWithL_iff, ih]
      constructor
      · rintro (⟨r, hr⟩ | ⟨p, q, hpq⟩)
        · exact ⟨[], r, by simpa using hr⟩
        · exact ⟨c :: p, q, by simp [hpq]⟩
      · rintro ⟨p, q, hpq⟩
        cases p with
        | nil =>
            left
            exact ⟨q, by simpa using hpq⟩
        | cons p0 ps =>
            right
            simp only [List.cons_append, List.cons.injEq] at hpq
            exact ⟨ps, q, hpq.2⟩

theorem strContains_iff (s sub : String) : strContains s sub = true ↔ OccursIn sub s :=
  containsSub_iff sub.data s.data

/-- C9 (amended): a chart is returned by `search_charts` exactly when it
is one of the index's values and the lowercased query occurs in its
lowercased title, artist or creator, or occurs verbatim in one of its
tags (tag matching is case-sensitive against the lowercased query; for
the lowercase tags the manager itself generates this coincides with
case-insensitive matching, but not for arbitrary persisted tags). -/
theorem c9_search_semantics (index : ChartIndex) (query : String) (c : ChartInfo) :
    c ∈ search_charts index query ↔
      c ∈ index.charts.map (fun kv => kv.2) ∧
        (OccursIn (toLower query) (toLower c.title) ∨
         OccursIn (toLower query) (toLower c.artist) ∨
         OccursIn (toLower query) (toLower c.creator) ∨
         ∃ tag ∈ c.tags, OccursIn (toLower query) tag) := by
  unfold search_charts
  rw [List.mem_filter]
  constructor
  · rintro ⟨hmem, hmatch⟩
    refine ⟨hmem, ?_⟩
    simp only [searchMatches, Bool.or_eq_true, List.any_eq_true, strContains_iff] at hmatch
    tauto
  · rintro ⟨hmem, hmatch⟩
    refine ⟨hmem, ?_⟩
    simp only [searchMatches, Bool.or_eq_true, List.any_eq_true, strContains_iff]
    tauto

/-- The index state refuting C9 as stated: one chart with the persisted
uppercase tag `HOLD`. -/
def infoC9 : ChartInfo :=
  ⟨"id1", "T", "A", "C", "V", 120, [], none, none, "f", 0, 0, none, none, ["HOLD"]⟩

def idxC9 : ChartIndex := ⟨[("id1", infoC9)], 0, 1⟩

/-- C9 counterexample: the query `hold` occurs case-insensitively in the
tag `HOLD` of an indexed chart, yet `search_charts` returns nothing —
so search is not the claimed case-insensitive tag-substring match. -/
theorem c9_counterexample :
    (infoC9 ∈ idxC9.charts.map (fun kv => kv.2) ∧
      ∃ tag ∈ infoC9.tags, OccursIn (toLower ("hold")) (toLower tag)) ∧
    search_charts idxC9 ("hold") = [] := by
  refine ⟨⟨by simp [idxC9], "HOLD", by simp [infoC9], [], [], by decide⟩, ?_⟩
  have hm : searchMatches (toLower ("hold")) infoC9 = false := by decide
  simp [search_charts, idxC9, hm]

/-! ### Per-chart library operations (manager.rs lines 304-393).
The index persist (`update_index`) re-stamps `last_update`; its disk
write always succeeds in the model (I/O failures are orthogonal to the
claims).  Lock acquisition is modelled where it is observable:
`update_index` acquires the index write lock (manager.rs line 305), and
`std::sync::RwLock` is non-reentrant, so a caller that still holds that
lock when it calls `update_index` never gets past the nested
acquisition — see `LockedCall` below. -/

/-- `HashMap::get_mut` followed by a field update: replace the value at
the key when present, change nothing when absent. -/
def kvUpdate (l : List (String × α)) (k : String) (f : α → α) : List (String × α) :=
  match l with
  | [] => []
  | (k0, v0) :: rest => if k0 = k then (k0, f v0) :: rest else (k0, v0) :: kvUpdate rest k f

/-- manager.rs `update_index`: stamp a fresh `last_update` and persist. -/
def update_index (index : ChartIndex) (now : ℕ) : ChartIndex :=
  { index with last_update := now }

/-- manager.rs `ChartManager::get_chart_by_id`. -/
def get_chart_by_id (index : ChartIndex) (id : String) : Option ChartInfo :=
  kvFind index.charts id

/-- The outcome of a call that takes the manager's index lock: either it
returns, or it never does.  `std::sync::RwLock` is non-reentrant, so a
thread re-acquiring the write lock it already holds deadlocks (or the
`unwrap` panics where the platform reports EDEADLK); in either case the
call never returns a value. -/
inductive LockedCall (α : Type) where
  | ret (a : α)
  | deadlock

/-- `update_index` as invoked by a caller, with `held` recording whether
the calling thread already holds the index write lock that line 305
acquires: the nested acquisition of the non-reentrant lock never
completes. -/
def update_index_from (held : Bool) (index : ChartIndex) (now : ℕ) :
    LockedCall ChartIndex :=
  if held then LockedCall.deadlock else LockedCall.ret (update_index index now)

/-- manager.rs `ChartManager::set_rating` (lines 384-393): the body
acquires the index write lock and holds the guard until it returns; the
(else-less, hence silent for a missing identity) rating update — clamped
to 0..5 — happens under it, and then `self.update_index()?` re-acquires
the same write lock (line 305).  That nested acquisition never
completes, so the call never returns — no `Ok`, no typed error, and no
persisted index — on every input. -/
def set_rating (index : ChartIndex) (chart_id : String) (rating : ℚ) (now : ℕ) :
    LockedCall (Except CoreError ChartIndex) :=
  let charts := kvUpdate index.charts chart_id
    (fun chart => { chart with rating := some (min (max rating 0) 5) })
  match update_index_from true ⟨charts, index.last_update, index.version⟩ now with
  | LockedCall.deadlock => LockedCall.deadlock
  | LockedCall.ret index2 => LockedCall.ret (Except.ok index2)

/-- manager.rs `ChartManager::load_chart_with_difficulty` (lines
339-349); the filesystem re-parse is a parameter.  Its read lock is
acquired and released inside `get_chart_by_id` (which returns a clone),
so no lock is held across the rest of the body and the call returns. -/
def load_chart_with_difficulty (index : ChartIndex) (chart_id difficulty_name : String)
    (parse_from_file : String → Except CoreError Chart) : Except CoreError Chart :=
  match get_chart_by_id index chart_id with
  | none => Except.error (CoreError.parse ("Chart not found: " ++ chart_id))
  | some chart_info =>
      match chart_info.difficulties.find? (fun d => d.name = difficulty_name) with
      | none => Except.error (CoreError.parse ("Difficulty not found: " ++ difficulty_name))
      | some difficulty => parse_from_file difficulty.file_path

theorem kvUpdate_of_find_none (l : List (String × α)) (k : String) (f : α → α)
    (h : kvFind l k = none) : kvUpdate l k f = l := by
  induction l with
  | nil => rfl
  | cons kv rest ih =>
      simp only [kvFind] at h
      by_cases hk : kv.1 = k
      · rw [if_pos hk] at h
        exact absurd h (by simp)
      · rw [if_neg hk] at h
        show (if kv.1 = k then _ else _) = _
        rw [if_neg hk, ih h]

/-- C8 (amended): loading by identity and difficulty name fails with a
typed Parse error when the identity or the named difficulty is absent
(that path holds no lock past `get_chart_by_id`, so it returns); but
`set_rating` surfaces no error for a missing identity — it never
returns at all, on any input, because it still holds the index write
lock when `update_index` re-acquires the same non-reentrant lock. -/
theorem c8_missing_target_behaviour (index : ChartIndex)
    (chart_id difficulty_name : String) (rating : ℚ) (now : ℕ)
    (parse_from_file : String → Except CoreError Chart) :
    (get_chart_by_id index chart_id = none →
      load_chart_with_difficulty index chart_id difficulty_name parse_from_file =
        Except.error (CoreError.parse ("Chart not found: " ++ chart_id))) ∧
    (∀ chart_info, get_chart_by_id index chart_id = some chart_info →
      chart_info.difficulties.find? (fun d => d.name = difficulty_name) = none →
      load_chart_with_difficulty index chart_id difficulty_name parse_from_file =
        Except.error (CoreError.parse ("Difficulty not found: " ++ difficulty_name))) ∧
    set_rating index chart_id rating now = LockedCall.deadlock := by
  refine ⟨?_, ?_, rfl⟩
  · intro h
    unfold load_chart_with_difficulty
    rw [h]
  · intro chart_info hfound hdiff
    simp only [load_chart_with_difficulty, hfound, hdiff]

/-- The empty index, for the C8 witness and counterexample. -/
def idxEmpty : ChartIndex := ⟨[], 0, 1⟩

/-- C8 counterexample: setting a rating for an identity that is not in
the index (here: against the empty index) does not fail with a typed
error — the call deadlocks on the nested index-lock acquisition inside
`update_index` and never returns a result of any kind. -/
theorem c8_counterexample :
    get_chart_by_id idxEmpty ("deadbeef") = none ∧
    set_rating idxEmpty ("deadbeef") 3 7 = LockedCall.deadlock := by
  exact ⟨rfl, rfl⟩

/-- Witness for the amended C8 at concrete inputs. -/
theorem c8_witness :
    load_chart_with_difficulty idxEmpty ("x") ("y")
        (fun _ => Except.error (CoreError.io ("no fs"))) =
      Except.error (CoreError.parse ("Chart not found: " ++ "x")) ∧
    set_rating idxEmpty ("x") 3 7 = LockedCall.deadlock := by
  have h := c8_missing_target_behaviour idxEmpty ("x") ("y") 3 7
    (fun _ => Except.error (CoreError.io ("no fs")))
  exact ⟨h.1 rfl, h.2.2⟩

/-! ### Tag generation and per-chart import processing
(manager.rs lines 162-220 and 263-302). -/

/-- manager.rs `generate_tags` (f32 arithmetic idealized as ℚ). -/
def generate_tags (chart : Chart) : List String :=
  let modeTag : String :=
    match chart.metadata.mode with
    | 0 => "4k"
    | 1 => "5k"
    | 2 => "6k"
    | 3 => "7k"
    | 4 => "8k"
    | _ => toString chart.metadata.columns ++ "k"
  let tags1 := [modeTag]
  let tags2 :=
    if 180 ≤ chart.metadata.bpm then tags1 ++ ["high-bpm"]
    else if chart.metadata.bpm ≤ 100 then tags1 ++ ["low-bpm"]
    else tags1
  let note_count := chart.notes.length
  let tags3 :=
    if 1000 ≤ note_count then tags2 ++ ["long"]
    else if note_count ≤ 100 then tags2 ++ ["short"]
    else tags2
  let hold_ratio : ℚ :=
    ((chart.notes.filter (fun n => n.note_type = NoteType.hold)).length : ℚ) /
      ((max note_count 1 : ℕ) : ℚ)
  if 3 / 10 < hold_ratio then tags3 ++ ["hold-heavy"] else tags3

/-- manager.rs `process_chart_file` after the parse succeeded: build the
difficulty record, then either merge into the existing entry with the
same identity (append difficulty, re-sort by level, reset play stats)
or insert a fresh `ChartInfo`. -/
noncomputable def process_chart_file (index : ChartIndex) (chart : Chart)
    (chart_path source_path : String) (now : ℕ) : ChartInfo × ChartIndex :=
  let metadata := chart.metadata
  let chart_id := generate_chart_id chart
  let difficulty : ChartDifficulty :=
    { name := metadata.version
      level := calculate_difficulty_level chart
      note_count := chart.notes.length
      duration := Chart.duration chart
      file_path := chart_path
      mode := metadata.mode
      columns := metadata.columns
      preview := metadata.preview_time.map (fun t => ⟨t, 30⟩) }
  match kvFind index.charts chart_id with
  | some existing =>
      let updated : ChartInfo :=
        { existing with
            difficulties := sortByKey (fun a b => a.level ≤ b.level)
              (existing.difficulties ++ [difficulty])
            last_played := none
            play_count := 0 }
      (updated, ⟨kvUpdate index.charts chart_id (fun _ => updated),
        index.last_update, index.version⟩)
  | none =>
      let chart_info : ChartInfo :=
        { id := chart_id
          title := metadata.title
          artist := metadata.artist
          creator := metadata.creator
          version := metadata.version
          bpm := metadata.bpm
          difficulties := [difficulty]
          audio_path := metadata.audio
          background_path := metadata.background
          source_file := source_path
          import_date := now
          play_count := 0
          last_played := none
          rating := none
          tags := generate_tags chart }
      (chart_info, ⟨index.charts ++ [(chart_id, chart_info)],
        index.last_update, index.version⟩)

/-! ### Bundle import (manager.rs `import_mcz_file`, lines 92-132).
Extraction and directory walking are filesystem effects; the loop over
the discovered chart files is embedded as a pure fold over the list of
(path, parse outcome) pairs.  A file whose parse failed is logged and
skipped; each success is processed against the running index.  The
index is persisted exactly once, after the loop; the final ℕ of
`import_mcz_file` counts persist events. -/

def exceptIsOk : Except ε α → Bool
  | Except.ok _ => true
  | Except.error _ => false

noncomputable def import_loop (source_path : String) (now : ℕ) :
    List (String × Except CoreError Chart) → ChartIndex → List ChartInfo × ChartIndex
  | [], index => ([], index)
  | (_, Except.error _) :: rest, index => import_loop source_path now rest index
  | (path, Except.ok chart) :: rest, index =>
      let pr := process_chart_file index chart path source_path now
      let rec_result := import_loop source_path now rest pr.2
      (pr.1 :: rec_result.1, rec_result.2)

noncomputable def import_mcz_file (index : ChartIndex) (source_path : String) (now : ℕ)
    (files : List (String × Except CoreError Chart)) :
    Except CoreError (List ChartInfo) × ChartIndex × ℕ :=
  let looped := import_loop source_path now files index
  (Except.ok looped.1, update_index looped.2 now, 1)

theorem import_loop_length (source_path : String) (now : ℕ) :
    ∀ (files : List (String × Except CoreError Chart)) (index : ChartIndex),
      ((import_loop source_path now files index).1).length =
        (files.filter (fun f => exceptIsOk f.2)).length := by
  intro files
  induction files with
  | nil => intro index; rfl
  | cons f rest ih =>
      intro index
      rcases f with ⟨path, res⟩
      cases res with
      | error e =>
          simp only [import_loop, List.filter_cons]
          rw [ih]
          simp [exceptIsOk]
      | ok chart =>
          simp only [import_loop, List.length_cons, List.filter_cons]
          rw [ih]
          simp [exceptIsOk]

/-- C7: a bundle import never aborts on a per-file parse failure — the
operation returns success, its result list holds exactly one ChartInfo
per successfully parsed file (failures are skipped), and the index is
persisted exactly once, after the whole loop. -/
theorem c7_partial_failure_tolerance (index : ChartIndex) (source_path : String)
    (now : ℕ) (files : List (String × Except CoreError Chart)) :
    (import_mcz_file index source_path now files).1 =
      Except.ok (import_loop source_path now files index).1 ∧
    ((import_loop source_path now files index).1).length =
      (files.filter (fun f => exceptIsOk f.2)).length ∧
    (import_mcz_file index source_path now files).2.1 =
      update_index (import_loop source_path now files index).2 now ∧
    (import_mcz_file index source_path now files).2.2 = 1 :=
  ⟨rfl, import_loop_length source_path now files index, rfl, rfl⟩

/-! ### IEEE special values (for C10).
The final sorts in `convert_to_chart` (parser.rs lines 269-273) compare
`f64` keys with `partial_cmp(..).unwrap()`, which panics on NaN.  NaN
creation and propagation do not depend on rounding, so `f64` is
modelled as ℚ extended with `+inf`, `-inf` and `NaN` (signed zero and
overflow are not modelled; the claims below only exercise exact values).
A stable sort of a list with at least two elements must invoke the
comparator on every element, so it panics exactly when the list has
length ≥ 2 and some key is NaN. -/

inductive FVal where
  | fin (q : ℚ)
  | pinf
  | ninf
  | nan
deriving DecidableEq

def FVal.add : FVal → FVal → FVal
  | nan, _ => nan
  | _, nan => nan
  | fin a, fin b => fin (a + b)
  | fin _, pinf => pinf
  | fin _, ninf => ninf
  | pinf, fin _ => pinf
  | ninf, fin _ => ninf
  | pinf, pinf => pinf
  | ninf, ninf => ninf
  | pinf, ninf => nan
  | ninf, pinf => nan

def FVal.neg : FVal → FVal
  | fin a => fin (-a)
  | pinf => ninf
  | ninf => pinf
  | nan => nan

def FVal.sub (a b : FVal) : FVal := FVal.add a (FVal.neg b)

def FVal.mul : FVal → FVal → FVal
  | nan, _ => nan
  | _, nan => nan
  | fin a, fin b => fin (a * b)
  | fin a, pinf => if a = 0 then nan else if 0 < a then pinf else ninf
  | fin a, ninf => if a = 0 then nan else if 0 < a then ninf else pinf
  | pinf, fin b => if b = 0 then nan else if 0 < b then pinf else ninf
  | ninf, fin b => if b = 0 then nan else if 0 < b then ninf else pinf
  | pinf, pinf => pinf
  | pinf, ninf => ninf
  | ninf, pinf => ninf
  | ninf, ninf => pinf

def FVal.div : FVal → FVal → FVal
  | nan, _ => nan
  | _, nan => nan
  | fin a, fin b =>
      if b = 0 then (if a = 0 then nan else if 0 < a then pinf else ninf)
      else fin (a / b)
  | fin _, pinf => fin 0
  | fin _, ninf => fin 0
  | pinf, fin b => if 0 ≤ b then pinf else ninf
  | ninf, fin b => if 0 ≤ b then ninf else pinf
  | pinf, pinf => nan
  | pinf, ninf => nan
  | ninf, pinf => nan
  | ninf, ninf => nan

/-- The `f64` operator `<=`: false whenever either side is NaN. -/
def FVal.le : FVal → FVal → Bool
  | nan, _ => false
  | _, nan => false
  | fin a, fin b => decide (a ≤ b)
  | fin _, pinf => true
  | fin _, ninf => false
  | pinf, fin _ => false
  | ninf, fin _ => true
  | pinf, pinf => true
  | ninf, ninf => true
  | pinf, ninf => false
  | ninf, pinf => true

theorem FVal.add_fin (a b : ℚ) : FVal.add (FVal.fin a) (FVal.fin b) = FVal.fin (a + b) := rfl

theorem FVal.sub_fin (a b : ℚ) : FVal.sub (FVal.fin a) (FVal.fin b) = FVal.fin (a - b) := by
  show FVal.fin (a + -b) = FVal.fin (a - b)
  rw [← sub_eq_add_neg]

theorem FVal.mul_fin (a b : ℚ) : FVal.mul (FVal.fin a) (FVal.fin b) = FVal.fin (a * b) := rfl

theorem FVal.div_fin (a b : ℚ) (h : b ≠ 0) :
    FVal.div (FVal.fin a) (FVal.fin b) = FVal.fin (a / b) := by
  simp [FVal.div, h]

theorem FVal.le_fin (a b : ℚ) : FVal.le (FVal.fin a) (FVal.fin b) = decide (a ≤ b) := rfl

/-- The beat fraction in `f64`: `0/0` is NaN, `n/0` (n ≠ 0) is ±inf. -/
def beatValueF (b : Beat) : FVal :=
  FVal.add (FVal.fin (b.1 : ℚ)) (FVal.div (FVal.fin (b.2.1 : ℚ)) (FVal.fin (b.2.2 : ℚ)))

theorem beatValueF_fin (b : Beat) (h : b.2.2 ≠ 0) :
    beatValueF b = FVal.fin (beatValue b) := by
  unfold beatValueF beatValue
  rw [FVal.div_fin _ _ (by exact_mod_cast h), FVal.add_fin]

/-- `beat_to_time_with_bpm_changes` in the `f64` model (the tempo values
themselves come from the input and stay finite rationals). -/
def btwAuxF (target_beats : FVal) : List (BPMChangeT FVal) → FVal → FVal → ℚ → FVal
  | [], time, current_beat, current_bpm =>
      FVal.add time (FVal.mul (FVal.sub target_beats current_beat)
        (FVal.div (FVal.fin 60) (FVal.fin current_bpm)))
  | change :: rest, time, current_beat, current_bpm =>
      let change_beats := beatValueF change.beat
      if FVal.le change_beats target_beats then
        btwAuxF target_beats rest
          (FVal.add time (FVal.mul (FVal.sub change_beats current_beat)
            (FVal.div (FVal.fin 60) (FVal.fin current_bpm))))
          change_beats change.bpm
      else
        FVal.add time (FVal.mul (FVal.sub target_beats current_beat)
          (FVal.div (FVal.fin 60) (FVal.fin current_bpm)))

def beat_to_timeF (bpm_changes : List (BPMChangeT FVal)) (target_beat : Beat)
    (default_bpm : ℚ) : FVal :=
  if bpm_changes.isEmpty then
    FVal.mul (beatValueF target_beat) (FVal.div (FVal.fin 60) (FVal.fin default_bpm))
  else
    btwAuxF (beatValueF target_beat) bpm_changes (FVal.fin 0) (FVal.fin 0) default_bpm

def timeLoopF (base : ℚ) : List MalodyTimePoint → List (BPMChangeT FVal) → List (BPMChangeT FVal)
  | [], acc => acc
  | tp :: rest, acc =>
      timeLoopF base rest (acc ++ [⟨beat_to_timeF acc tp.beat base, tp.bpm, tp.beat⟩])

def primaryBpmChangesF (mc : MalodyChart) : List (BPMChangeT FVal) :=
  timeLoopF (baseBpmOf mc) mc.time []

structure EffectStateF where
  bpm_changes : List (BPMChangeT FVal)
  time_signatures : List (TimeSignatureT FVal)
  speed_changes : List (SpeedChangeT FVal)
  effects : List (ChartEventT FVal)

def effectLoopF (base : ℚ) : List MalodyEffect → EffectStateF → EffectStateF
  | [], st => st
  | e :: rest, st =>
      let time := beat_to_timeF st.bpm_changes e.beat base
      match e.effect_type with
      | 1 => effectLoopF base rest
          { st with bpm_changes := st.bpm_changes ++ [⟨time, e.value, e.beat⟩] }
      | 2 =>
          let value := ratToU64 e.value
          effectLoopF base rest
            { st with time_signatures := st.time_signatures ++
                [⟨time, value % 256, value / 256 % 256, e.beat⟩] }
      | 3 => effectLoopF base rest
          { st with speed_changes := st.speed_changes ++ [⟨time, e.value, e.beat⟩] }
      | _ => effectLoopF base rest
          { st with effects := st.effects ++
              [⟨time, "malody_effect_" ++ toString e.effect_type,
                Json.obj [("value", Json.num e.value)]⟩] }

def effectStateOfF (mc : MalodyChart) : EffectStateF :=
  effectLoopF (baseBpmOf mc) mc.effect ⟨primaryBpmChangesF mc, [], [], []⟩

structure NoteStateF where
  notes : List (NoteT FVal)
  audio_files : List (ℕ × String)
  audio : Option String
  audio_offset : Int

def noteLoopF (bpm_changes : List (BPMChangeT FVal)) (base : ℚ) :
    List MalodyNote → ℕ → NoteStateF → NoteStateF
  | [], _, st => st
  | n :: rest, i, st =>
      let start_time := beat_to_timeF bpm_changes n.beat base
      let note_type := noteTypeOf n.note_type
      let end_time := n.endBeat.map (fun e => beat_to_timeF bpm_changes e base)
      let note : NoteT FVal :=
        ⟨i, start_time, end_time, n.column, note_type, n.beat, n.sound, n.vol⟩
      match n.sound with
      | some s =>
          if note_type = NoteType.tap ∧ n.column = 0 ∧ i = 0 then
            noteLoopF bpm_changes base rest (i + 1)
              { st with audio := some s, audio_offset := n.offset.getD 0 }
          else
            noteLoopF bpm_changes base rest (i + 1)
              { st with notes := st.notes ++ [note],
                        audio_files := st.audio_files ++ [(i, s)] }
      | none =>
          noteLoopF bpm_changes base rest (i + 1)
            { st with notes := st.notes ++ [note] }

def noteStateOfF (mc : MalodyChart) : NoteStateF :=
  noteLoopF (effectStateOfF mc).bpm_changes (baseBpmOf mc) mc.note 0 ⟨[], [], none, 0⟩

/-- A Rust stable sort of this key list would call the comparator on a
NaN and `unwrap` the resulting `None`: list length ≥ 2 with a NaN key. -/
def sortWouldCrash (keys : List FVal) : Bool :=
  decide (2 ≤ keys.length) && keys.any (fun k => k = FVal.nan)

def leBpmF (a b : BPMChangeT FVal) : Bool := FVal.le a.time b.time

def leSigF (a b : TimeSignatureT FVal) : Bool := FVal.le a.time b.time

def leSpeedF (a b : SpeedChangeT FVal) : Bool := FVal.le a.time b.time

def leNoteF (a b : NoteT FVal) : Bool := FVal.le a.start_time b.start_time

def leEventF (a b : ChartEventT FVal) : Bool := FVal.le a.time b.time

/-- The outcome of a parse call in the `f64` model: a chart, a typed
error — or a panic in the final sorts. -/
inductive ParseOutcome where
  | ok (chart : ChartT FVal)
  | err (e : CoreError)
  | crash

def ParseOutcome.isOkB : ParseOutcome → Bool
  | ParseOutcome.ok _ => true
  | _ => false

/-- `custom_data` assembly in the `f64` model (same shape as
`customDataOf`; the sound table never touches a float). -/
def customDataOfF (mc : MalodyChart) : List (String × Json) :=
  let base := (mc.extra.getD []).foldl (fun acc kv => insertKV acc kv.1 kv.2) []
  let af := (noteStateOfF mc).audio_files
  if af.isEmpty then base else insertKV base ("audio_files") (audioFilesJson af)

/-- parser.rs `convert_to_chart` in the `f64` model, with the final
sorts' panic behaviour made explicit. -/
def convert_to_chartF (mc : MalodyChart) : ParseOutcome :=
  let ns := noteStateOfF mc
  let es := effectStateOfF mc
  let metadata : ChartMetadata :=
    { title := mc.meta.song.title
      title_original := mc.meta.song.titleorg
      artist := mc.meta.song.artist
      artist_original := mc.meta.song.artistorg
      creator := mc.meta.creator
      version := mc.meta.version
      background := mc.meta.background
      audio := ns.audio
      audio_offset := ns.audio_offset
      preview_time := none
      bpm := baseBpmOf mc
      id := mc.meta.id
      mode := mc.meta.mode
      columns := (mc.meta.mode_ext.map (fun ext => ext.column)).getD 4 }
  if sortWouldCrash (es.bpm_changes.map (fun c => c.time)) ||
      sortWouldCrash (es.time_signatures.map (fun c => c.time)) ||
      sortWouldCrash (es.speed_changes.map (fun c => c.time)) ||
      sortWouldCrash (ns.notes.map (fun n => n.start_time)) ||
      sortWouldCrash (es.effects.map (fun c => c.time)) then
    ParseOutcome.crash
  else
    ParseOutcome.ok
      { metadata := metadata
        bpm_changes := sortByKey leBpmF es.bpm_changes
        time_signatures := sortByKey leSigF es.time_signatures
        speed_changes := sortByKey leSpeedF es.speed_changes
        notes := sortByKey leNoteF ns.notes
        effects := sortByKey leEventF es.effects
        custom_data := customDataOfF mc }

/-- parser.rs `parse_from_str`; the serde decode outcome is a parameter. -/
def parse_from_str (decoded : Except String MalodyChart) : ParseOutcome :=
  match decoded with
  | Except.error e =>
      ParseOutcome.err (CoreError.parse ("Failed to parse Malody chart JSON: " ++ e))
  | Except.ok mc => convert_to_chartF mc

/-- parser.rs `parse_from_bytes`; the UTF-8 decode outcome is a parameter. -/
def parse_from_bytes (utf8 : Except String (Except String MalodyChart)) : ParseOutcome :=
  match utf8 with
  | Except.error e =>
      ParseOutcome.err (CoreError.parse ("Invalid UTF-8 in chart data: " ++ e))
  | Except.ok decoded => parse_from_str decoded

/-- The concrete input refuting C10 as stated: the first note's beat is
(0,0,0), whose fraction 0/0 is NaN in `f64`; with a second note present
the final note sort must compare the NaN key and its `unwrap` panics. -/
def mcCrash : MalodyChart :=
  { meta := metaX
    time := [⟨(0, 0, 1), 120⟩]
    effect := []
    note := [⟨(0, 0, 0), 0, none, none, none, none, none⟩,
             ⟨(1, 0, 1), 1, none, none, none, none, none⟩]
    extra := none }

theorem mcCrash_es : effectStateOfF mcCrash = ⟨[⟨FVal.fin 0, 120, (0, 0, 1)⟩], [], [], []⟩ := by
  norm_num [effectStateOfF, effectLoopF, primaryBpmChangesF, timeLoopF, baseBpmOf,
    mcCrash, metaX, beat_to_timeF, btwAuxF, beatValueF, FVal.add, FVal.div, FVal.mul]

theorem mcCrash_notes : (noteStateOfF mcCrash).notes =
    [⟨0, FVal.nan, none, 0, NoteType.tap, (0, 0, 0), none, none⟩,
     ⟨1, FVal.fin (1 / 2), none, 1, NoteType.tap, (1, 0, 1), none, none⟩] := by
  unfold noteStateOfF
  rw [mcCrash_es]
  norm_num [mcCrash, metaX, noteLoopF, noteTypeOf, beat_to_timeF, btwAuxF, beatValueF,
    FVal.add, FVal.div, FVal.mul, FVal.sub, FVal.neg, FVal.le, baseBpmOf]

/-- C10 counterexample: parsing `mcCrash` neither returns a chart nor a
typed error — the final note sort panics on the NaN key produced by the
zero-denominator beat (0,0,0). -/
theorem c10_counterexample : parse_from_str (Except.ok mcCrash) = ParseOutcome.crash := by
  show convert_to_chartF mcCrash = ParseOutcome.crash
  simp only [convert_to_chartF]
  rw [mcCrash_es, mcCrash_notes]
  norm_num [sortWouldCrash]

/-! ### When do the final sorts stay total?
Under nonzero beat denominators and positive tempo values every sort
key the parser computes is a finite rational, so the `f64` pipeline is
the `FVal.fin`-image of the exact ℚ pipeline and no sort can panic. -/

/-- The input hygiene the amended C10 assumes: every beat fraction that
becomes a sort key has a nonzero denominator, and every tempo value is
positive. -/
def WellFormedBeats (mc : MalodyChart) : Prop :=
  (∀ tp ∈ mc.time, tp.beat.2.2 ≠ 0 ∧ 0 < tp.bpm) ∧
  (∀ e ∈ mc.effect, e.beat.2.2 ≠ 0 ∧ (e.effect_type = 1 → 0 < e.value)) ∧
  (∀ n ∈ mc.note, n.beat.2.2 ≠ 0 ∧ ∀ eb ∈ n.endBeat, eb.2.2 ≠ 0)

/-- A breakpoint whose beat fraction is finite and whose tempo is positive. -/
def GoodChange (c : BPMChangeT ℚ) : Prop := c.beat.2.2 ≠ 0 ∧ 0 < c.bpm

def mapChangeF (c : BPMChangeT ℚ) : BPMChangeT FVal := ⟨FVal.fin c.time, c.bpm, c.beat⟩

def mapSigF (c : TimeSignatureT ℚ) : TimeSignatureT FVal :=
  ⟨FVal.fin c.time, c.numerator, c.denominator, c.beat⟩

def mapSpeedF (c : SpeedChangeT ℚ) : SpeedChangeT FVal := ⟨FVal.fin c.time, c.speed, c.beat⟩

def mapEventF (c : ChartEventT ℚ) : ChartEventT FVal := ⟨FVal.fin c.time, c.event_type, c.data⟩

def mapNoteF (n : NoteT ℚ) : NoteT FVal :=
  ⟨n.id, FVal.fin n.start_time, n.end_time.map FVal.fin, n.column, n.note_type, n.beat,
    n.sound, n.volume⟩

theorem btwAuxF_eq (L : List (BPMChangeT ℚ)) :
    ∀ (t time cb bpm : ℚ), (∀ c ∈ L, GoodChange c) → 0 < bpm →
      btwAuxF (FVal.fin t) (L.map mapChangeF) (FVal.fin time) (FVal.fin cb) bpm =
        FVal.fin (btwAux t L time cb bpm) := by
  induction L with
  | nil =>
      intro t time cb bpm _ hbpm
      show FVal.add _ (FVal.mul (FVal.sub _ _) (FVal.div _ _)) = _
      rw [FVal.sub_fin, FVal.div_fin _ _ (by exact ne_of_gt hbpm), FVal.mul_fin, FVal.add_fin]
      rfl
  | cons c rest ih =>
      intro t time cb bpm hL hbpm
      have hc := hL c (List.mem_cons_self c rest)
      simp only [List.map_cons, btwAuxF, btwAux]
      have hbeat : (mapChangeF c).beat = c.beat := rfl
      rw [hbeat, beatValueF_fin c.beat hc.1, FVal.le_fin]
      by_cases hle : beatValue c.beat ≤ t
      · rw [if_pos (by simpa using hle), if_pos hle,
          FVal.sub_fin, FVal.div_fin _ _ (by exact ne_of_gt hbpm), FVal.mul_fin, FVal.add_fin]
        exact ih t _ (beatValue c.beat) c.bpm
          (fun x hx => hL x (List.mem_cons_of_mem c hx)) hc.2
      · rw [if_neg (by simpa using hle), if_neg hle,
          FVal.sub_fin, FVal.div_fin _ _ (by exact ne_of_gt hbpm), FVal.mul_fin, FVal.add_fin]

theorem beat_to_timeF_eq (L : List (BPMChangeT ℚ)) (tb : Beat) (bpm : ℚ)
    (hL : ∀ c ∈ L, GoodChange c) (hbpm : 0 < bpm) (htb : tb.2.2 ≠ 0) :
    beat_to_timeF (L.map mapChangeF) tb bpm =
      FVal.fin (beat_to_time_with_bpm_changes L tb bpm) := by
  cases L with
  | nil =>
      show FVal.mul _ (FVal.div _ _) = _
      rw [beatValueF_fin tb htb, FVal.div_fin _ _ (by exact ne_of_gt hbpm), FVal.mul_fin]
      rfl
  | cons c rest =>
      show btwAuxF (beatValueF tb) _ (FVal.fin 0) (FVal.fin 0) bpm = _
      rw [beatValueF_fin tb htb, btwAuxF_eq (c :: rest) _ 0 0 bpm hL hbpm]
      rfl

theorem timeLoopF_eq (base : ℚ) (hbase : 0 < base) :
    ∀ (l : List MalodyTimePoint) (acc : List (BPMChangeT ℚ)),
      (∀ tp ∈ l, tp.beat.2.2 ≠ 0 ∧ 0 < tp.bpm) →
      (∀ c ∈ acc, GoodChange c) →
      timeLoopF base l (acc.map mapChangeF) = (timeLoop base l acc).map mapChangeF ∧
      (∀ c ∈ timeLoop base l acc, GoodChange c) := by
  intro l
  induction l with
  | nil =>
      intro acc _ hacc
      exact ⟨rfl, hacc⟩
  | cons tp rest ih =>
      intro acc hl hacc
      have htp := hl tp (List.mem_cons_self tp rest)
      have hmap : (acc.map mapChangeF) ++
          [(⟨beat_to_timeF (acc.map mapChangeF) tp.beat base, tp.bpm, tp.beat⟩ :
            BPMChangeT FVal)] =
          (acc ++ [(⟨beat_to_time_with_bpm_changes acc tp.beat base, tp.bpm, tp.beat⟩ :
            BPMChangeT ℚ)]).map mapChangeF := by
        rw [beat_to_timeF_eq acc tp.beat base hacc hbase htp.1]
        simp [mapChangeF]
      have hacc' : ∀ c ∈ acc ++
          [(⟨beat_to_time_with_bpm_changes acc tp.beat base, tp.bpm, tp.beat⟩ :
            BPMChangeT ℚ)], GoodChange c := by
        intro c hcmem
        rcases List.mem_append.mp hcmem with hcmem | hcmem
        · exact hacc c hcmem
        · simp only [List.mem_singleton] at hcmem
          subst hcmem
          exact ⟨htp.1, htp.2⟩
      have hrest : ∀ x ∈ rest, x.beat.2.2 ≠ 0 ∧ 0 < x.bpm :=
        fun x hx => hl x (List.mem_cons_of_mem tp hx)
      constructor
      · show timeLoopF base rest _ = _
        rw [hmap]
        exact (ih _ hrest hacc').1
      · exact (ih _ hrest hacc').2

def mapEffectStateF (st : EffectState) : EffectStateF :=
  ⟨st.bpm_changes.map mapChangeF, st.time_signatures.map mapSigF,
   st.speed_changes.map mapSpeedF, st.effects.map mapEventF⟩

theorem effectLoopF_eq (base : ℚ) (hbase : 0 < base) :
    ∀ (l : List MalodyEffect) (st : EffectState),
      (∀ e ∈ l, e.beat.2.2 ≠ 0 ∧ (e.effect_type = 1 → 0 < e.value)) →
      (∀ c ∈ st.bpm_changes, GoodChange c) →
      effectLoopF base l (mapEffectStateF st) = mapEffectStateF (effectLoop base l st) ∧
      (∀ c ∈ (effectLoop base l st).bpm_changes, GoodChange c) := by
  intro l
  induction l with
  | nil =>
      intro st _ hst
      exact ⟨rfl, hst⟩
  | cons e rest ih =>
      intro st hl hst
      have he := hl e (List.mem_cons_self e rest)
      have hrest : ∀ x ∈ rest, x.beat.2.2 ≠ 0 ∧ (x.effect_type = 1 → 0 < x.value) :=
        fun x hx => hl x (List.mem_cons_of_mem e hx)
      have htime : beat_to_timeF (mapEffectStateF st).bpm_changes e.beat base =
          FVal.fin (beat_to_time_with_bpm_changes st.bpm_changes e.beat base) :=
        beat_to_timeF_eq st.bpm_changes e.beat base hst hbase he.1
      simp only [effectLoopF, effectLoop, htime]
      split
      · rename_i htype
        have hval : 0 < e.value := he.2 htype
        have hst' : ∀ c ∈ st.bpm_changes ++
            [(⟨beat_to_time_with_bpm_changes st.bpm_changes e.beat base, e.value, e.beat⟩ :
              BPMChangeT ℚ)], GoodChange c := by
          intro c hcmem
          rcases List.mem_append.mp hcmem with hcmem | hcmem
          · exact hst c hcmem
          · simp only [List.mem_singleton] at hcmem
            subst hcmem
            exact ⟨he.1, hval⟩
        have := ih { st with bpm_changes := st.bpm_changes ++
            [(⟨beat_to_time_with_bpm_changes st.bpm_changes e.beat base, e.value, e.beat⟩ :
              BPMChangeT ℚ)] } hrest hst'
        refine ⟨?_, this.2⟩
        rw [← this.1]
        congr 1
        simp [mapEffectStateF, mapChangeF]
      · rename_i htype
        have := ih { st with time_signatures := st.time_signatures ++
            [(⟨beat_to_time_with_bpm_changes st.bpm_changes e.beat base,
              ratToU64 e.value % 256, ratToU64 e.value / 256 % 256, e.beat⟩ :
              TimeSignatureT ℚ)] } hrest hst
        refine ⟨?_, this.2⟩
        rw [← this.1]
        congr 1
        simp [mapEffectStateF, mapSigF]
      · rename_i htype
        have := ih { st with speed_changes := st.speed_changes ++
            [(⟨beat_to_time_with_bpm_changes st.bpm_changes e.beat base, e.value, e.beat⟩ :
              SpeedChangeT ℚ)] } hrest hst
        refine ⟨?_, this.2⟩
        rw [← this.1]
        congr 1
        simp [mapEffectStateF, mapSpeedF]
      · have := ih { st with effects := st.effects ++
            [(⟨beat_to_time_with_bpm_changes st.bpm_changes e.beat base,
              "malody_effect_" ++ toString e.effect_type,
              Json.obj [("value", Json.num e.value)]⟩ : ChartEventT ℚ)] } hrest hst
        refine ⟨?_, this.2⟩
        rw [← this.1]
        congr 1
        simp [mapEffectStateF, mapEventF]

def mapNoteStateF (st : NoteState) : NoteStateF :=
  ⟨st.notes.map mapNoteF, st.audio_files, st.audio, st.audio_offset⟩

theorem noteLoopF_eq (bc : List (BPMChangeT ℚ)) (base : ℚ)
    (hbc : ∀ c ∈ bc, GoodChange c) (hbase : 0 < base) :
    ∀ (l : List MalodyNote) (i : ℕ) (st : NoteState),
      (∀ n ∈ l, n.beat.2.2 ≠ 0 ∧ ∀ eb ∈ n.endBeat, eb.2.2 ≠ 0) →
      noteLoopF (bc.map mapChangeF) base l i (mapNoteStateF st) =
        mapNoteStateF (noteLoop bc base l i st) := by
  intro l
  induction l with
  | nil =>
      intro i st _
      rfl
  | cons n rest ih =>
      intro i st hl
      have hn := hl n (List.mem_cons_self n rest)
      have hrest : ∀ x ∈ rest, x.beat.2.2 ≠ 0 ∧ ∀ eb ∈ x.endBeat, eb.2.2 ≠ 0 :=
        fun x hx => hl x (List.mem_cons_of_mem n hx)
      have hstart : beat_to_timeF (bc.map mapChangeF) n.beat base =
          FVal.fin (beat_to_time_with_bpm_changes bc n.beat base) :=
        beat_to_timeF_eq bc n.beat base hbc hbase hn.1
      have hend : n.endBeat.map (fun e => beat_to_timeF (bc.map mapChangeF) e base) =
          (n.endBeat.map (fun e => beat_to_time_with_bpm_changes bc e base)).map FVal.fin := by
        cases hopt : n.endBeat with
        | none => rfl
        | some eb =>
            have heb : eb.2.2 ≠ 0 := hn.2 eb (by rw [hopt]; rfl)
            show some (beat_to_timeF (bc.map mapChangeF) eb base) = _
            rw [beat_to_timeF_eq bc eb base hbc hbase heb]
            rfl
      cases hs : n.sound with
      | none =>
          simp only [noteLoopF, noteLoop, hs, hstart, hend]
          have hih := ih (i + 1) { st with notes := st.notes ++
              [(⟨i, beat_to_time_with_bpm_changes bc n.beat base,
                n.endBeat.map (fun e => beat_to_time_with_bpm_changes bc e base),
                n.column, noteTypeOf n.note_type, n.beat, none, n.vol⟩ : NoteT ℚ)] } hrest
          rw [← hih]
          exact congrArg _ (by simp [mapNoteStateF, mapNoteF])
      | some s =>
          simp only [noteLoopF, noteLoop, hs, hstart, hend]
          by_cases hc : noteTypeOf n.note_type = NoteType.tap ∧ n.column = 0 ∧ i = 0
          · rw [if_pos hc, if_pos hc]
            have hih := ih (i + 1)
              { st with audio := some s, audio_offset := n.offset.getD 0 } hrest
            rw [← hih]
            rfl
          · rw [if_neg hc, if_neg hc]
            have hih := ih (i + 1) { st with
                notes := st.notes ++
                  [(⟨i, beat_to_time_with_bpm_changes bc n.beat base,
                    n.endBeat.map (fun e => beat_to_time_with_bpm_changes bc e base),
                    n.column, noteTypeOf n.note_type, n.beat, some s, n.vol⟩ : NoteT ℚ)],
                audio_files := st.audio_files ++ [(i, s)] } hrest
            rw [← hih]
            exact congrArg _ (by simp [mapNoteStateF, mapNoteF])

theorem sortWouldCrash_fin_keys (keys : List FVal)
    (h : ∀ k ∈ keys, ∃ q, k = FVal.fin q) : sortWouldCrash keys = false := by
  unfold sortWouldCrash
  cases hany : keys.any (fun k => k = FVal.nan) with
  | false => simp
  | true =>
      obtain ⟨k, hk, hknan⟩ := List.any_eq_true.mp hany
      obtain ⟨q, hq⟩ := h k hk
      rw [hq] at hknan
      simp at hknan

theorem baseBpmOf_pos (mc : MalodyChart) (hwf : WellFormedBeats mc) : 0 < baseBpmOf mc := by
  unfold baseBpmOf
  cases htime : mc.time with
  | nil => norm_num
  | cons tp rest =>
      exact (hwf.1 tp (by rw [htime]; exact List.mem_cons_self tp rest)).2

theorem effectStateOfF_eq (mc : MalodyChart) (hwf : WellFormedBeats mc) :
    effectStateOfF mc = mapEffectStateF (effectStateOf mc) ∧
    (∀ c ∈ accumulatedBpmChanges mc, GoodChange c) := by
  have hbase := baseBpmOf_pos mc hwf
  have hprim := timeLoopF_eq (baseBpmOf mc) hbase mc.time []
    hwf.1 (by intro c hc; simp at hc)
  have heff := effectLoopF_eq (baseBpmOf mc) hbase mc.effect
    ⟨primaryBpmChanges mc, [], [], []⟩ hwf.2.1 hprim.2
  constructor
  · show effectLoopF (baseBpmOf mc) mc.effect ⟨primaryBpmChangesF mc, [], [], []⟩ = _
    have hstate : (⟨primaryBpmChangesF mc, [], [], []⟩ : EffectStateF) =
        mapEffectStateF ⟨primaryBpmChanges mc, [], [], []⟩ := by
      show (⟨primaryBpmChangesF mc, [], [], []⟩ : EffectStateF) =
        ⟨(primaryBpmChanges mc).map mapChangeF, [], [], []⟩
      rw [show primaryBpmChangesF mc = (primaryBpmChanges mc).map mapChangeF from hprim.1]
    rw [hstate]
    exact heff.1
  · exact heff.2

theorem noteStateOfF_eq (mc : MalodyChart) (hwf : WellFormedBeats mc) :
    noteStateOfF mc = mapNoteStateF (noteStateOf mc) := by
  have hes := effectStateOfF_eq mc hwf
  show noteLoopF (effectStateOfF mc).bpm_changes (baseBpmOf mc) mc.note 0 ⟨[], [], none, 0⟩ = _
  rw [show (effectStateOfF mc).bpm_changes = (accumulatedBpmChanges mc).map mapChangeF from
    by rw [hes.1]; rfl]
  exact noteLoopF_eq (accumulatedBpmChanges mc) (baseBpmOf mc) hes.2
    (baseBpmOf_pos mc hwf) mc.note 0 ⟨[], [], none, 0⟩ hwf.2.2

theorem convert_to_chartF_ok (mc : MalodyChart) (hwf : WellFormedBeats mc) :
    ∃ chart, convert_to_chartF mc = ParseOutcome.ok chart := by
  have hes := (effectStateOfF_eq mc hwf).1
  have hns := noteStateOfF_eq mc hwf
  have hbpmKeys : sortWouldCrash (((effectStateOf mc).bpm_changes.map mapChangeF).map
      (fun c => c.time)) = false := by
    apply sortWouldCrash_fin_keys
    intro k hk
    rw [List.map_map] at hk
    obtain ⟨c, _, hc⟩ := List.mem_map.mp hk
    exact ⟨c.time, hc.symm⟩
  have hsigKeys : sortWouldCrash (((effectStateOf mc).time_signatures.map mapSigF).map
      (fun c => c.time)) = false := by
    apply sortWouldCrash_fin_keys
    intro k hk
    rw [List.map_map] at hk
    obtain ⟨c, _, hc⟩ := List.mem_map.mp hk
    exact ⟨c.time, hc.symm⟩
  have hspeedKeys : sortWouldCrash (((effectStateOf mc).speed_changes.map mapSpeedF).map
      (fun c => c.time)) = false := by
    apply sortWouldCrash_fin_keys
    intro k hk
    rw [List.map_map] at hk
    obtain ⟨c, _, hc⟩ := List.mem_map.mp hk
    exact ⟨c.time, hc.symm⟩
  have hnoteKeys : sortWouldCrash (((noteStateOf mc).notes.map mapNoteF).map
      (fun n => n.start_time)) = false := by
    apply sortWouldCrash_fin_keys
    intro k hk
    rw [List.map_map] at hk
    obtain ⟨c, _, hc⟩ := List.mem_map.mp hk
    exact ⟨c.start_time, hc.symm⟩
  have heventKeys : sortWouldCrash (((effectStateOf mc).effects.map mapEventF).map
      (fun c => c.time)) = false := by
    apply sortWouldCrash_fin_keys
    intro k hk
    rw [List.map_map] at hk
    obtain ⟨c, _, hc⟩ := List.mem_map.mp hk
    exact ⟨c.time, hc.symm⟩
  unfold convert_to_chartF
  rw [hes, hns]
  simp only [mapEffectStateF, mapNoteStateF]
  rw [hbpmKeys, hsigKeys, hspeedKeys, hnoteKeys, heventKeys]
  simp only [Bool.or_self, Bool.or_false, Bool.false_or, Bool.false_eq_true, if_false]
  exact ⟨_, rfl⟩

/-- C10 (amended): parsing a decoded document whose beat fractions all
have nonzero denominators and whose tempo values are all positive
terminates normally with a Chart; a serde decode failure maps to a
Parse error carrying the decode message, and the byte entry point adds
only the invalid-encoding Parse error before delegating.  (The original
claim's "never panics even for zero denominators" is refuted by
`c10_counterexample`: a 0/0 beat produces a NaN sort key and the final
sort's comparator `unwrap` panics.) -/
theorem c10_parse_totality (decoded : Except String MalodyChart)
    (bytes : Except String (Except String MalodyChart)) :
    (∀ m, decoded = Except.error m → parse_from_str decoded =
      ParseOutcome.err (CoreError.parse ("Failed to parse Malody chart JSON: " ++ m))) ∧
    (∀ mc, decoded = Except.ok mc → WellFormedBeats mc →
      ∃ chart, parse_from_str decoded = ParseOutcome.ok chart) ∧
    (∀ m, bytes = Except.error m → parse_from_bytes bytes =
      ParseOutcome.err (CoreError.parse ("Invalid UTF-8 in chart data: " ++ m))) ∧
    (∀ d, bytes = Except.ok d → parse_from_bytes bytes = parse_from_str d) := by
  refine ⟨?_, ?_, ?_, ?_⟩
  · intro m hm
    rw [hm]
    rfl
  · intro mc hmc hwf
    rw [hmc]
    exact convert_to_chartF_ok mc hwf
  · intro m hm
    rw [hm]
    rfl
  · intro d hd
    rw [hd]
    rfl

theorem mcW2_wf : WellFormedBeats mcW2 := by
  refine ⟨?_, ?_, ?_⟩
  · intro tp htp
    simp only [mcW2, List.mem_singleton] at htp
    subst htp
    norm_num
  · intro e he
    simp [mcW2] at he
  · intro n hn
    simp only [mcW2, List.mem_singleton] at hn
    subst hn
    refine ⟨by norm_num, ?_⟩
    intro eb heb
    simp at heb

/-- Witness for the amended C10 at the concrete well-formed input `mcW2`. -/
theorem c10_witness : (parse_from_str (Except.ok mcW2)).isOkB = true := by
  obtain ⟨chart, hchart⟩ :=
    (c10_parse_totality (Except.ok mcW2) (Except.ok (Except.ok mcW2))).2.1 mcW2 rfl mcW2_wf
  rw [hchart]
  rfl
